import Mathlib

/-
Verification of the Drill-Plans persistence layer.

The repository implements one storage contract (`IStorage`, server/storage.ts)
three times: `DatabaseStorage` (PostgreSQL via drizzle, server/storage.ts with
the DDL in migrations/0000_late_mister_sinister.sql), a Firestore adapter
(`FirebaseStorage`, first class in server/firebase-storage.ts) and a Realtime
Database adapter (`FirebaseStorage`, second class in the same file, modelled
here as `RealtimeStorage`).

The embedding below represents each backend's state as lists of records and
each storage method as a pure function on that state.  Timestamps and dates
are modelled as `Nat` (the code only ever compares them with `getTime()` or SQL
ordering); document/row ids are modelled as `Nat` drawn from a `nextId`
counter (the code uses uuids / Firestore doc ids / `generateId()`, which are
only ever compared for equality).  JavaScript's stable `Array.prototype.sort`
and SQL `ORDER BY` are modelled by the stable insertion sort `sortStable`.
-/

/-- The source enum `event_type` is `('drill', 'class')`; `cls` stands for the
reserved word `class`. -/
inductive EventType where
  | drill
  | cls
deriving DecidableEq, Repr

/-- The source enum `flight_type` is `('alpha', 'tango', 'both')`. -/
inductive FlightType where
  | alpha
  | tango
  | both
deriving DecidableEq, Repr

/-- The `'alpha' | 'tango'` argument type of `getLastExecutionByFlight`. -/
inductive Flight where
  | alpha
  | tango
deriving DecidableEq, Repr

/-- Injection of the two-valued flight argument into the stored enum. -/
def Flight.toFlightType : Flight → FlightType
  | .alpha => .alpha
  | .tango => .tango

/-- A row of `drill_commands` (shared/schema.ts, firebase-schema.ts). -/
structure DrillCommand where
  id : Nat
  name : String
  type : EventType
  metadata : Option String
  createdAt : Nat
deriving DecidableEq, Repr

/-- A row of `drill_plans`. -/
structure DrillPlan where
  id : Nat
  date : Nat
  flightAssignment : FlightType
  commandId : Nat
  eventType : EventType
  createdAt : Nat
  updatedAt : Nat
deriving DecidableEq, Repr

/-- A row of `drill_plan_files`; both foreign keys are nullable. -/
structure DrillPlanFile where
  id : Nat
  drillPlanId : Option Nat
  commandId : Option Nat
  fileName : String
  filePath : String
  fileSize : Nat
  mimeType : String
  uploadedAt : Nat
deriving DecidableEq, Repr

/-- A row of `drill_plan_notes` as the relational code uses it: the migration
DDL and every query in server/storage.ts key notes by `drill_plan_id`. -/
structure DrillPlanNote where
  id : Nat
  drillPlanId : Nat
  content : String
  authorName : String
  createdAt : Nat
deriving DecidableEq, Repr

/-- A note document as both Firebase adapters store it: per
shared/firebase-schema.ts a note carries a `commandId`, not a plan id. -/
structure FirebaseNote where
  id : Nat
  commandId : Nat
  content : String
  authorName : String
  createdAt : Nat
deriving DecidableEq, Repr

/-- A row of `command_execution_history`. -/
structure HistoryEntry where
  id : Nat
  commandId : Nat
  drillPlanId : Nat
  flightType : FlightType
  executedAt : Nat
deriving DecidableEq, Repr

/-- Insert payload for `createPlan` (`insertDrillPlanSchema`). -/
structure InsertDrillPlan where
  date : Nat
  flightAssignment : FlightType
  commandId : Nat
  eventType : EventType
deriving DecidableEq, Repr

/-- Insert payload for `createFile` (`insertDrillPlanFileSchema`). -/
structure InsertDrillPlanFile where
  drillPlanId : Option Nat
  commandId : Option Nat
  fileName : String
  filePath : String
  fileSize : Nat
  mimeType : String
deriving DecidableEq, Repr

/-- Insert payload for the relational `createDrillPlanNote`. -/
structure InsertDrillPlanNote where
  drillPlanId : Nat
  content : String
  authorName : String
deriving DecidableEq, Repr

/-! ### Stable sorting

`sortStable keep l` models JavaScript's stable `Array.prototype.sort` and
SQL `ORDER BY`: `keep q p` says an element `q` already in the sorted output
stays in front of a newly inserted, originally-later element `p`. -/

/-- Insert `p` behind every element it does not strictly beat. -/
def insOrd (keep : α → α → Bool) : List α → α → List α
  | [], p => [p]
  | q :: rest, p => if keep q p then q :: insOrd keep rest p else p :: q :: rest

/-- Stable insertion sort. -/
def sortStable (keep : α → α → Bool) (l : List α) : List α :=
  l.foldl (insOrd keep) []

theorem insOrd_perm (keep : α → α → Bool) (l : List α) (p : α) :
    (insOrd keep l p).Perm (p :: l) := by
  induction l with
  | nil => simp [insOrd]
  | cons q rest ih =>
    by_cases h : keep q p = true
    · simp only [insOrd, if_pos h]
      exact (ih.cons q).trans (List.Perm.swap p q rest)
    · simp [insOrd, h]

theorem foldl_insOrd_perm (keep : α → α → Bool) (l acc : List α) :
    (l.foldl (insOrd keep) acc).Perm (acc ++ l) := by
  induction l generalizing acc with
  | nil => simp
  | cons x l ih =>
    have h1 : (x :: l).foldl (insOrd keep) acc
        = l.foldl (insOrd keep) (insOrd keep acc x) := rfl
    have h2 : (l.foldl (insOrd keep) (insOrd keep acc x)).Perm (insOrd keep acc x ++ l) := ih _
    have h3 : (insOrd keep acc x ++ l).Perm ((x :: acc) ++ l) :=
      (insOrd_perm keep acc x).append_right l
    have h4 : ((x :: acc) ++ l).Perm (acc ++ x :: l) := by
      simpa using List.perm_middle.symm
    rw [h1]
    exact (h2.trans h3).trans h4

theorem sortStable_perm (keep : α → α → Bool) (l : List α) :
    (sortStable keep l).Perm l := by
  simpa [sortStable] using foldl_insOrd_perm keep l []

theorem mem_sortStable (keep : α → α → Bool) (l : List α) (a : α) :
    a ∈ sortStable keep l ↔ a ∈ l :=
  (sortStable_perm keep l).mem_iff

theorem length_sortStable (keep : α → α → Bool) (l : List α) :
    (sortStable keep l).length = l.length :=
  (sortStable_perm keep l).length_eq

theorem insOrd_pairwise (keep : α → α → Bool)
    (htot : ∀ a b, keep a b = true ∨ keep b a = true)
    (htrans : ∀ a b c, keep a b = true → keep b c = true → keep a c = true)
    (l : List α) (p : α) (hl : l.Pairwise (fun a b => keep a b = true)) :
    (insOrd keep l p).Pairwise (fun a b => keep a b = true) := by
  induction l with
  | nil => simp [insOrd]
  | cons q rest ih =>
    rcases List.pairwise_cons.mp hl with ⟨hq, hrest⟩
    by_cases h : keep q p = true
    · simp only [insOrd, if_pos h]
      refine List.pairwise_cons.mpr ⟨?_, ih hrest⟩
      intro b hb
      have hb' := (insOrd_perm keep rest p).mem_iff.mp hb
      rcases List.mem_cons.mp hb' with rfl | hbr
      · exact h
      · exact hq b hbr
    · simp only [insOrd, if_neg h]
      have hp : keep p q = true := (htot p q).resolve_right h
      refine List.pairwise_cons.mpr ⟨?_, hl⟩
      intro b hb
      rcases List.mem_cons.mp hb with rfl | hbr
      · exact hp
      · exact htrans p q b hp (hq b hbr)

theorem sortStable_pairwise (keep : α → α → Bool)
    (htot : ∀ a b, keep a b = true ∨ keep b a = true)
    (htrans : ∀ a b c, keep a b = true → keep b c = true → keep a c = true)
    (l : List α) :
    (sortStable keep l).Pairwise (fun a b => keep a b = true) := by
  have main : ∀ (m acc : List α), acc.Pairwise (fun a b => keep a b = true) →
      (m.foldl (insOrd keep) acc).Pairwise (fun a b => keep a b = true) := by
    intro m
    induction m with
    | nil => intro acc h; exact h
    | cons x m ih =>
      intro acc h
      exact ih _ (insOrd_pairwise keep htot htrans acc x h)
  exact main l [] (by simp)

/-- `ORDER BY k DESC` / `sort((a, b) => k(b) - k(a))`. -/
def keepDesc (k : α → Nat) (a b : α) : Bool := decide (k b ≤ k a)

/-- `ORDER BY k ASC` / `sort((a, b) => k(a) - k(b))`. -/
def keepAsc (k : α → Nat) (a b : α) : Bool := decide (k a ≤ k b)

/-- Stable descending sort by a numeric key. -/
def sortByDesc (k : α → Nat) (l : List α) : List α := sortStable (keepDesc k) l

/-- Stable ascending sort by a numeric key. -/
def sortByAsc (k : α → Nat) (l : List α) : List α := sortStable (keepAsc k) l

theorem sortByDesc_perm (k : α → Nat) (l : List α) : (sortByDesc k l).Perm l :=
  sortStable_perm _ l

theorem sortByAsc_perm (k : α → Nat) (l : List α) : (sortByAsc k l).Perm l :=
  sortStable_perm _ l

theorem sortByDesc_pairwise (k : α → Nat) (l : List α) :
    (sortByDesc k l).Pairwise (fun a b => k b ≤ k a) := by
  have h := sortStable_pairwise (keepDesc k)
    (fun a b => by
      rcases Nat.le_total (k b) (k a) with h | h
      · exact Or.inl (by simpa [keepDesc] using h)
      · exact Or.inr (by simpa [keepDesc] using h))
    (fun a b c hab hbc => by
      simp only [keepDesc, decide_eq_true_eq] at hab hbc ⊢
      exact le_trans hbc hab) l
  refine h.imp ?_
  intro a b hab
  simpa [keepDesc] using hab

/-- A nonempty list sorted descendingly starts with a maximal element. -/
theorem sortByDesc_head_max (k : α → Nat) (l : List α) (x : α) (hx : x ∈ l) :
    ∃ h t, sortByDesc k l = h :: t ∧ h ∈ l ∧ ∀ y ∈ l, k y ≤ k h := by
  have hmem : x ∈ sortByDesc k l := (sortByDesc_perm k l).mem_iff.mpr hx
  match hs : sortByDesc k l with
  | [] => rw [hs] at hmem; cases hmem
  | h :: t =>
    refine ⟨h, t, rfl, ?_, ?_⟩
    · exact (sortByDesc_perm k l).mem_iff.mp (by rw [hs]; exact List.mem_cons_self h t)
    · intro y hy
      have hy' : y ∈ sortByDesc k l := (sortByDesc_perm k l).mem_iff.mpr hy
      rw [hs] at hy'
      rcases List.mem_cons.mp hy' with rfl | hyt
      · exact le_refl _
      · have hp := sortByDesc_pairwise k l
        rw [hs] at hp
        exact (List.pairwise_cons.mp hp).1 y hyt

/-- If `p` is the strict maximum of `l` for key `k`, every descending sort of
`l` starts with `p`. -/
theorem sortByDesc_head_unique (k : α → Nat) (l : List α) (p : α)
    (hp : p ∈ l) (hmax : ∀ q ∈ l, q ≠ p → k q < k p) :
    ∃ t, sortByDesc k l = p :: t := by
  obtain ⟨h, t, hs, hmem, hge⟩ := sortByDesc_head_max k l p hp
  by_cases hhp : h = p
  · exact ⟨t, by rw [hs, hhp]⟩
  · have h1 : k h < k p := hmax h hmem hhp
    have h2 : k p ≤ k h := hge p hp
    omega

/-! ### Generic list lemmas used by every backend model -/

/-- A find-by-key on a list with distinct keys locates a given member. -/
theorem find?_key_eq_of_nodup (key : α → Nat) (l : List α) (p : α) (k : Nat)
    (hnd : (l.map key).Nodup) (hp : p ∈ l) (hk : key p = k) :
    l.find? (fun x => key x = k) = some p := by
  induction l with
  | nil => cases hp
  | cons x rest ih =>
    rw [List.map_cons] at hnd
    rcases List.nodup_cons.mp hnd with ⟨hx, hrest⟩
    by_cases hxk : key x = k
    · have hxp : x = p := by
        rcases List.mem_cons.mp hp with rfl | hpr
        · rfl
        · exfalso
          exact hx (by rw [hxk, ← hk]; exact List.mem_map_of_mem (fun y => key y) hpr)
      rw [List.find?_cons_of_pos _ (by simpa using hxk), hxp]
    · have hpr : p ∈ rest := by
        rcases List.mem_cons.mp hp with rfl | hpr
        · exact absurd hk hxk
        · exact hpr
      rw [List.find?_cons_of_neg _ (by simpa using hxk)]
      exact ih hrest hpr

/-- A find-by-key misses iff no member carries the key. -/
theorem find?_key_eq_none (key : α → Nat) (l : List α) (k : Nat)
    (h : ∀ x ∈ l, key x ≠ k) :
    l.find? (fun x => key x = k) = none := by
  rw [List.find?_eq_none]
  intro x hx
  simpa using h x hx

/-- Filtering away an absent key is the identity. -/
theorem filter_key_ne_eq_self (key : α → Nat) (l : List α) (k : Nat)
    (h : ∀ x ∈ l, key x ≠ k) :
    l.filter (fun x => ¬ key x = k) = l := by
  rw [List.filter_eq_self]
  intro x hx
  simpa using h x hx

/-- Two distinct members force length at least two. -/
theorem one_lt_length_of_two_mem (l : List α) (a b : α)
    (ha : a ∈ l) (hb : b ∈ l) (hab : a ≠ b) : 1 < l.length := by
  match l with
  | [] => cases ha
  | [x] =>
    rcases List.mem_singleton.mp ha with rfl
    rcases List.mem_singleton.mp hb with rfl
    exact absurd rfl hab
  | x :: y :: rest => simp [List.length_cons]

namespace DatabaseStorage

/-- State of the relational backend (`DatabaseStorage`, server/storage.ts): one
list per table of migrations/0000_late_mister_sinister.sql, a fresh-id
allocator standing for `gen_random_uuid()`, and the current clock reading
standing for `new Date()` / `now()`. -/
structure Store where
  commands : List DrillCommand
  plans : List DrillPlan
  files : List DrillPlanFile
  notes : List DrillPlanNote
  history : List HistoryEntry
  nextId : Nat
  now : Nat
deriving DecidableEq, Repr

/-- Well-formedness maintained by the database: row ids are distinct and every
id or foreign key in the store was produced by the allocator. -/
def WF (s : Store) : Prop :=
  (s.plans.map (fun p => p.id)).Nodup ∧
  (∀ p ∈ s.plans, p.id < s.nextId) ∧
  (∀ f ∈ s.files, ∀ pid, f.drillPlanId = some pid → pid < s.nextId) ∧
  (∀ n ∈ s.notes, n.drillPlanId < s.nextId) ∧
  (∀ h ∈ s.history, h.drillPlanId < s.nextId)

/-- `createDrillPlan` (storage.ts 146-171): insert the plan row, then a history
row whose flight is alpha when the assignment is `both` and the assignment
itself otherwise, then, only for `both`, a second tango history row; every
history row carries `executedAt = plan.date`. -/
def createDrillPlan (s : Store) (plan : InsertDrillPlan) : DrillPlan × Store :=
  let newPlan : DrillPlan :=
    ⟨s.nextId, plan.date, plan.flightAssignment, plan.commandId, plan.eventType, s.now, s.now⟩
  let h1 : HistoryEntry :=
    ⟨s.nextId + 1, plan.commandId, newPlan.id,
      if plan.flightAssignment = FlightType.both then FlightType.alpha else plan.flightAssignment,
      plan.date⟩
  if plan.flightAssignment = FlightType.both then
    let h2 : HistoryEntry :=
      ⟨s.nextId + 2, plan.commandId, newPlan.id, FlightType.tango, plan.date⟩
    (newPlan, { s with plans := s.plans ++ [newPlan],
                       history := s.history ++ [h1, h2],
                       nextId := s.nextId + 3 })
  else
    (newPlan, { s with plans := s.plans ++ [newPlan],
                       history := s.history ++ [h1],
                       nextId := s.nextId + 2 })

/-- `getDrillPlanFiles` (storage.ts 227-229): files whose `drill_plan_id`
matches. -/
def getDrillPlanFiles (s : Store) (drillPlanId : Nat) : List DrillPlanFile :=
  s.files.filter (fun f => f.drillPlanId = some drillPlanId)

/-- `getDrillPlanNotes` (storage.ts 246-250): notes of the plan ordered by
`created_at`. -/
def getDrillPlanNotes (s : Store) (drillPlanId : Nat) : List DrillPlanNote :=
  sortByAsc (fun n => n.createdAt) (s.notes.filter (fun n => n.drillPlanId = drillPlanId))

/-- The joined view returned by `getDrillPlan`. -/
structure PlanView where
  plan : DrillPlan
  command : DrillCommand
  files : List DrillPlanFile
  notes : List DrillPlanNote
deriving DecidableEq, Repr

/-- `getDrillPlan` (storage.ts 123-144): inner join of the plan with its
command (empty when either is missing), plus the plan's files and notes. -/
def getDrillPlan (s : Store) (id : Nat) : Option PlanView :=
  match s.plans.find? (fun p => p.id = id) with
  | none => none
  | some p =>
    match s.commands.find? (fun c => c.id = p.commandId) with
    | none => none
    | some c => some ⟨p, c, getDrillPlanFiles s id, getDrillPlanNotes s id⟩

/-- `createDrillPlanFile` (storage.ts 222-225). -/
def createDrillPlanFile (s : Store) (file : InsertDrillPlanFile) : DrillPlanFile × Store :=
  let f : DrillPlanFile :=
    ⟨s.nextId, file.drillPlanId, file.commandId, file.fileName, file.filePath,
      file.fileSize, file.mimeType, s.now⟩
  (f, { s with files := s.files ++ [f], nextId := s.nextId + 1 })

/-- `createDrillPlanNote` (storage.ts 241-244). -/
def createDrillPlanNote (s : Store) (note : InsertDrillPlanNote) : DrillPlanNote × Store :=
  let n : DrillPlanNote := ⟨s.nextId, note.drillPlanId, note.content, note.authorName, s.now⟩
  (n, { s with notes := s.notes ++ [n], nextId := s.nextId + 1 })

/-- `deleteDrillPlan` (storage.ts 181-184) together with the `ON DELETE
cascade` clauses of the migration DDL (drill_plan_files, drill_plan_notes and
command_execution_history all cascade from drill_plans): returns whether a row
was deleted, and the cascade fires only when it was. -/
def deleteDrillPlan (s : Store) (id : Nat) : Bool × Store :=
  if s.plans.any (fun p => p.id = id) then
    (true, { s with
      plans := s.plans.filter (fun p => ¬ p.id = id),
      files := s.files.filter (fun f => ¬ f.drillPlanId = some id),
      notes := s.notes.filter (fun n => ¬ n.drillPlanId = id),
      history := s.history.filter (fun h => ¬ h.drillPlanId = id) })
  else (false, s)

/-- `deleteDrillCommand` (storage.ts 101-104) under the migration DDL: the
foreign key drill_plans.command_id is `ON DELETE no action`, so deleting a
command still referenced by a plan raises a constraint violation (modelled as
`Except.error`); otherwise files and history cascade (their command_id keys
are `ON DELETE cascade`; the migration's drill_plan_notes table carries no
command reference). -/
def deleteDrillCommand (s : Store) (id : Nat) : Except Unit (Bool × Store) :=
  if s.commands.any (fun c => c.id = id) then
    if s.plans.any (fun p => p.commandId = id) then Except.error ()
    else Except.ok (true, { s with
      commands := s.commands.filter (fun c => ¬ c.id = id),
      files := s.files.filter (fun f => ¬ f.commandId = some id),
      history := s.history.filter (fun h => ¬ h.commandId = id) })
  else Except.ok (false, s)

/-- `deleteDrillPlanFile` (storage.ts 235-238): plain row delete. -/
def deleteDrillPlanFile (s : Store) (id : Nat) : Bool × Store :=
  if s.files.any (fun f => f.id = id) then
    (true, { s with files := s.files.filter (fun f => ¬ f.id = id) })
  else (false, s)

/-- `deleteDrillPlanNote` (storage.ts 252-255): plain row delete. -/
def deleteDrillPlanNote (s : Store) (id : Nat) : Bool × Store :=
  if s.notes.any (fun n => n.id = id) then
    (true, { s with notes := s.notes.filter (fun n => ¬ n.id = id) })
  else (false, s)

/-- `duplicateDrillPlan` (storage.ts 186-219): load the joined view, create a
plan with the same command/flight/event fields on the new date, copy every
file row onto the new plan keeping `filePath` verbatim, then copy every note
onto the new plan. -/
def duplicateDrillPlan (s : Store) (id newDate : Nat) : Option DrillPlan × Store :=
  match getDrillPlan s id with
  | none => (none, s)
  | some v =>
    let r := createDrillPlan s ⟨newDate, v.plan.flightAssignment, v.plan.commandId, v.plan.eventType⟩
    let s2 := v.files.foldl (fun st f =>
      (createDrillPlanFile st
        ⟨some r.1.id, f.commandId, f.fileName, f.filePath, f.fileSize, f.mimeType⟩).2) r.2
    let s3 := v.notes.foldl (fun st n =>
      (createDrillPlanNote st ⟨r.1.id, n.content, n.authorName⟩).2) s2
    (some r.1, s3)

/-- `getLastExecutionByFlight` (storage.ts 264-273): filter on both fields,
order by `executed_at` descending, take the first row. -/
def getLastExecutionByFlight (s : Store) (commandId : Nat) (flight : Flight) :
    Option HistoryEntry :=
  (sortByDesc (fun h => h.executedAt)
    (s.history.filter
      (fun h => h.commandId = commandId ∧ h.flightType = flight.toFlightType))).head?

/-- The prune threshold test: the JS code compares the integer byte size
against the float `1 GiB - 1 GiB * 0.1 = 966367641.6`, which is exact once both
sides are scaled by 10. -/
def sizeLeTarget (size : Nat) : Bool := 10 * size ≤ 9663676416

/-- The `ROW_NUMBER() OVER (PARTITION BY command_id ORDER BY date DESC) = 1`
predicate of `pruneOldData` (storage.ts 292-307): the plan heads the
descending-by-date ordering of its command's plans. -/
def isRankOne (plans : List DrillPlan) (p : DrillPlan) : Bool :=
  (sortByDesc (fun q => q.date) (plans.filter (fun q => q.commandId = p.commandId))).head? = some p

/-- The `rn > 1 ORDER BY date ASC` result set of `pruneOldData`. -/
def eligiblePlans (s : Store) : List DrillPlan :=
  sortByAsc (fun p => p.date) (s.plans.filter (fun p => ¬ isRankOne s.plans p))

/-- The deletion loop of `pruneOldData` (storage.ts 310-315): delete one plan,
re-measure, stop as soon as the size reaches the target. -/
def pruneLoop (sizeOf : Store → Nat) : Store → List Nat → Store
  | s, [] => s
  | s, id :: rest =>
    let s2 := (deleteDrillPlan s id).2
    if sizeLeTarget (sizeOf s2) then s2 else pruneLoop sizeOf s2 rest

/-- `pruneOldData` (storage.ts 283-316), parameterised by the backend size
measurement (`pg_database_size` in the source). -/
def pruneOldData (sizeOf : Store → Nat) (s : Store) : Store :=
  if sizeLeTarget (sizeOf s) then s
  else pruneLoop sizeOf s ((eligiblePlans s).map (fun p => p.id))

/-- Folding the single-plan delete over a list of ids; used to state how far
the prune loop advanced. -/
def deleteIds (s : Store) (ids : List Nat) : Store :=
  ids.foldl (fun st i => (deleteDrillPlan st i).2) s

end DatabaseStorage

/-! ### The document / key-value backends

Both classes named `FirebaseStorage` in server/firebase-storage.ts (the
Firestore adapter and the Realtime Database adapter) keep the same five
collections plus the Firebase Storage blob bucket; `FbStore` is the state
shape shared by the two adapters, whose operations are modelled in the
`FirestoreStorage` and `RealtimeStorage` namespaces. -/

/-- State of a Firebase adapter: the five collections, the set of blob
locators living in Firebase Storage, the doc-id allocator (`addDoc` /
`generateId()`), and the clock. -/
structure FbStore where
  commands : List DrillCommand
  plans : List DrillPlan
  files : List DrillPlanFile
  notes : List FirebaseNote
  history : List HistoryEntry
  blobs : List String
  nextId : Nat
  now : Nat
deriving DecidableEq, Repr

/-- One step of JavaScript `Map` key insertion: keys keep first-insertion
order. -/
def insertKey (ks : List Nat) (k : Nat) : List Nat :=
  if k ∈ ks then ks else ks ++ [k]

/-- The command ids of a plan list in first-occurrence order, as iterating a
`Map<string, DrillPlan[]>` built with `forEach` yields them. -/
def firstKeys (l : List DrillPlan) : List Nat :=
  l.foldl (fun ks p => insertKey ks p.commandId) []

/-- The `commandPlanMap` of both `pruneOldData` variants: plans grouped by
`commandId`, groups in first-occurrence order, members in list order. -/
def groupByCommand (l : List DrillPlan) : List (Nat × List DrillPlan) :=
  (firstKeys l).map (fun c => (c, l.filter (fun p => p.commandId = c)))

namespace FirestoreStorage

/-- `getDrillCommand` (firebase-storage.ts 139-146). -/
def getDrillCommand (s : FbStore) (id : Nat) : Option DrillCommand :=
  s.commands.find? (fun c => c.id = id)

/-- `createDrillPlan` (firebase-storage.ts 221-255): `addDoc` the plan, then
one history doc (alpha when the assignment is `both`), then, for `both`, a
second tango history doc; each history doc stores `executedAt = plan.date`. -/
def createDrillPlan (s : FbStore) (plan : InsertDrillPlan) : DrillPlan × FbStore :=
  let newPlan : DrillPlan :=
    ⟨s.nextId, plan.date, plan.flightAssignment, plan.commandId, plan.eventType, s.now, s.now⟩
  let h1 : HistoryEntry :=
    ⟨s.nextId + 1, plan.commandId, newPlan.id,
      if plan.flightAssignment = FlightType.both then FlightType.alpha else plan.flightAssignment,
      plan.date⟩
  if plan.flightAssignment = FlightType.both then
    let h2 : HistoryEntry :=
      ⟨s.nextId + 2, plan.commandId, newPlan.id, FlightType.tango, plan.date⟩
    (newPlan, { s with plans := s.plans ++ [newPlan],
                       history := s.history ++ [h1, h2],
                       nextId := s.nextId + 3 })
  else
    (newPlan, { s with plans := s.plans ++ [newPlan],
                       history := s.history ++ [h1],
                       nextId := s.nextId + 2 })

/-- `getAllDrillPlans` (firebase-storage.ts 179-196): every plan ordered by
date ascending (the attached command object is dropped here because no
modelled caller reads it). -/
def getAllDrillPlans (s : FbStore) : List DrillPlan :=
  sortByAsc (fun p => p.date) s.plans

/-- `getDrillPlanFiles` (firebase-storage.ts 321-328). -/
def getDrillPlanFiles (s : FbStore) (drillPlanId : Nat) : List DrillPlanFile :=
  s.files.filter (fun f => f.drillPlanId = some drillPlanId)

/-- `getCommandNotes` (firebase-storage.ts 378-389): notes are selected by
`commandId` and ordered by `createdAt`. -/
def getCommandNotes (s : FbStore) (commandId : Nat) : List FirebaseNote :=
  sortByAsc (fun n => n.createdAt) (s.notes.filter (fun n => n.commandId = commandId))

/-- The joined view of `getDrillPlan`; the command is optional because the
source reads `command!` without checking existence. -/
structure PlanView where
  plan : DrillPlan
  command : Option DrillCommand
  files : List DrillPlanFile
  notes : List FirebaseNote
deriving DecidableEq, Repr

/-- `getDrillPlan` (firebase-storage.ts 198-219): fetch the plan doc, then the
command, the plan's files, and — note — the notes of the plan's command. -/
def getDrillPlan (s : FbStore) (id : Nat) : Option PlanView :=
  match s.plans.find? (fun p => p.id = id) with
  | none => none
  | some p =>
    some ⟨p, getDrillCommand s p.commandId, getDrillPlanFiles s id,
      getCommandNotes s p.commandId⟩

/-- `deleteDrillPlan` (firebase-storage.ts 272-279): a bare `deleteDoc`, which
resolves successfully even when the doc does not exist, so the method returns
`true` unconditionally and touches nothing else. -/
def deleteDrillPlan (s : FbStore) (id : Nat) : Bool × FbStore :=
  (true, { s with plans := s.plans.filter (fun p => ¬ p.id = id) })

/-- `deleteDrillCommand` (firebase-storage.ts 169-176): a bare `deleteDoc` of
the command doc only. -/
def deleteDrillCommand (s : FbStore) (id : Nat) : Bool × FbStore :=
  (true, { s with commands := s.commands.filter (fun c => ¬ c.id = id) })

/-- `deleteCommandNote` (firebase-storage.ts 391-398). -/
def deleteCommandNote (s : FbStore) (id : Nat) : Bool × FbStore :=
  (true, { s with notes := s.notes.filter (fun n => ¬ n.id = id) })

/-- `createDrillPlanFile` (firebase-storage.ts 308-319). -/
def createDrillPlanFile (s : FbStore) (file : InsertDrillPlanFile) : DrillPlanFile × FbStore :=
  let f : DrillPlanFile :=
    ⟨s.nextId, file.drillPlanId, file.commandId, file.fileName, file.filePath,
      file.fileSize, file.mimeType, s.now⟩
  (f, { s with files := s.files ++ [f], nextId := s.nextId + 1 })

/-- `getFileById` (firebase-storage.ts 339-346). -/
def getFileById (s : FbStore) (id : Nat) : Option DrillPlanFile :=
  s.files.find? (fun f => f.id = id)

/-- `deleteDrillPlanFile` (firebase-storage.ts 348-362): when the metadata doc
exists and names a blob, `deleteObject` runs first and rejects when the blob
is absent (caught, yielding `false` with nothing deleted); otherwise the
metadata `deleteDoc` is a success even for a missing id. -/
def deleteDrillPlanFile (s : FbStore) (id : Nat) : Bool × FbStore :=
  match getFileById s id with
  | none => (true, { s with files := s.files.filter (fun f => ¬ f.id = id) })
  | some f =>
    if f.filePath = "" then
      (true, { s with files := s.files.filter (fun g => ¬ g.id = id) })
    else if f.filePath ∈ s.blobs then
      (true, { s with blobs := s.blobs.filter (fun b => ¬ b = f.filePath),
                      files := s.files.filter (fun g => ¬ g.id = id) })
    else (false, s)

/-- `duplicateDrillPlan` (firebase-storage.ts 281-305): same field copy and
file-metadata copy as the relational adapter, but no note copying at all. -/
def duplicateDrillPlan (s : FbStore) (id newDate : Nat) : Option DrillPlan × FbStore :=
  match getDrillPlan s id with
  | none => (none, s)
  | some v =>
    let r := createDrillPlan s ⟨newDate, v.plan.flightAssignment, v.plan.commandId, v.plan.eventType⟩
    let s2 := v.files.foldl (fun st f =>
      (createDrillPlanFile st
        ⟨some r.1.id, f.commandId, f.fileName, f.filePath, f.fileSize, f.mimeType⟩).2) r.2
    (some r.1, s2)

/-- `getLastExecutionByFlight` (firebase-storage.ts 414-428): equality filters
on both fields, `orderBy executedAt desc`, `limit 1`. -/
def getLastExecutionByFlight (s : FbStore) (commandId : Nat) (flight : Flight) :
    Option HistoryEntry :=
  (sortByDesc (fun h => h.executedAt)
    (s.history.filter
      (fun h => h.commandId = commandId ∧ h.flightType = flight.toFlightType))).head?

/-- `getDatabaseSize` (firebase-storage.ts 431-449): document count across the
five collections times a fixed 1024 bytes per document. -/
def getDatabaseSize (s : FbStore) : Nat :=
  (s.commands.length + s.plans.length + s.files.length + s.notes.length +
    s.history.length) * 1024

/-- `pruneOldData` (firebase-storage.ts 451-476): group all plans by command,
sort each group by date descending, and delete everything but the head of each
group — without ever consulting `getDatabaseSize`. -/
def pruneOldData (s : FbStore) : FbStore :=
  let plans := getAllDrillPlans s
  (groupByCommand plans).foldl (fun st g =>
    if 1 < g.2.length then
      ((sortByDesc (fun p => p.date) g.2).tail).foldl
        (fun st2 p => (deleteDrillPlan st2 p.id).2) st
    else st) s

end FirestoreStorage

namespace RealtimeStorage

/-- `getDrillCommand` (firebase-storage.ts 566-584). -/
def getDrillCommand (s : FbStore) (id : Nat) : Option DrillCommand :=
  s.commands.find? (fun c => c.id = id)

/-- `createDrillPlan` (firebase-storage.ts 681-722): `set` the plan at a fresh
id, then one history record (alpha when `both`), then, for `both`, a second
tango record, all with `executedAt = plan.date`. -/
def createDrillPlan (s : FbStore) (plan : InsertDrillPlan) : DrillPlan × FbStore :=
  let newPlan : DrillPlan :=
    ⟨s.nextId, plan.date, plan.flightAssignment, plan.commandId, plan.eventType, s.now, s.now⟩
  let h1 : HistoryEntry :=
    ⟨s.nextId + 1, plan.commandId, newPlan.id,
      if plan.flightAssignment = FlightType.both then FlightType.alpha else plan.flightAssignment,
      plan.date⟩
  if plan.flightAssignment = FlightType.both then
    let h2 : HistoryEntry :=
      ⟨s.nextId + 2, plan.commandId, newPlan.id, FlightType.tango, plan.date⟩
    (newPlan, { s with plans := s.plans ++ [newPlan],
                       history := s.history ++ [h1, h2],
                       nextId := s.nextId + 3 })
  else
    (newPlan, { s with plans := s.plans ++ [newPlan],
                       history := s.history ++ [h1],
                       nextId := s.nextId + 2 })

/-- `getAllDrillPlans` (firebase-storage.ts 621-640). -/
def getAllDrillPlans (s : FbStore) : List DrillPlan :=
  sortByAsc (fun p => p.date) s.plans

/-- `getDrillPlanFiles` (firebase-storage.ts 796-812). -/
def getDrillPlanFiles (s : FbStore) (drillPlanId : Nat) : List DrillPlanFile :=
  s.files.filter (fun f => f.drillPlanId = some drillPlanId)

/-- `getCommandNotes` (firebase-storage.ts 876-892). -/
def getCommandNotes (s : FbStore) (commandId : Nat) : List FirebaseNote :=
  sortByAsc (fun n => n.createdAt) (s.notes.filter (fun n => n.commandId = commandId))

/-- The joined view of the Realtime `getDrillPlan`; unlike the Firestore
variant this adapter checks that the command exists. -/
structure PlanView where
  plan : DrillPlan
  command : DrillCommand
  files : List DrillPlanFile
  notes : List FirebaseNote
deriving DecidableEq, Repr

/-- `getDrillPlan` (firebase-storage.ts 642-679): fetch the plan, its command
(returning `undefined` when the command is missing), the plan's files and the
notes of the plan's command. -/
def getDrillPlan (s : FbStore) (id : Nat) : Option PlanView :=
  match s.plans.find? (fun p => p.id = id) with
  | none => none
  | some p =>
    match getDrillCommand s p.commandId with
    | none => none
    | some c => some ⟨p, c, getDrillPlanFiles s id, getCommandNotes s p.commandId⟩

/-- `deleteDrillPlan` (firebase-storage.ts 740-748): a bare `remove`, which
succeeds even for a missing id, so `true` is returned unconditionally. -/
def deleteDrillPlan (s : FbStore) (id : Nat) : Bool × FbStore :=
  (true, { s with plans := s.plans.filter (fun p => ¬ p.id = id) })

/-- `deleteDrillCommand` (firebase-storage.ts 610-618): removes only the
command record. -/
def deleteDrillCommand (s : FbStore) (id : Nat) : Bool × FbStore :=
  (true, { s with commands := s.commands.filter (fun c => ¬ c.id = id) })

/-- `deleteCommandNote` (firebase-storage.ts 894-902). -/
def deleteCommandNote (s : FbStore) (id : Nat) : Bool × FbStore :=
  (true, { s with notes := s.notes.filter (fun n => ¬ n.id = id) })

/-- `createDrillPlanFile` (firebase-storage.ts 777-794). -/
def createDrillPlanFile (s : FbStore) (file : InsertDrillPlanFile) : DrillPlanFile × FbStore :=
  let f : DrillPlanFile :=
    ⟨s.nextId, file.drillPlanId, file.commandId, file.fileName, file.filePath,
      file.fileSize, file.mimeType, s.now⟩
  (f, { s with files := s.files ++ [f], nextId := s.nextId + 1 })

/-- `getFileById` (firebase-storage.ts 832-839). -/
def getFileById (s : FbStore) (id : Nat) : Option DrillPlanFile :=
  s.files.find? (fun f => f.id = id)

/-- `deleteDrillPlanFile` (firebase-storage.ts 841-856): same shape as the
Firestore variant. -/
def deleteDrillPlanFile (s : FbStore) (id : Nat) : Bool × FbStore :=
  match getFileById s id with
  | none => (true, { s with files := s.files.filter (fun f => ¬ f.id = id) })
  | some f =>
    if f.filePath = "" then
      (true, { s with files := s.files.filter (fun g => ¬ g.id = id) })
    else if f.filePath ∈ s.blobs then
      (true, { s with blobs := s.blobs.filter (fun b => ¬ b = f.filePath),
                      files := s.files.filter (fun g => ¬ g.id = id) })
    else (false, s)

/-- `duplicateDrillPlan` (firebase-storage.ts 750-774): copies the plan fields
and the file metadata, no notes. -/
def duplicateDrillPlan (s : FbStore) (id newDate : Nat) : Option DrillPlan × FbStore :=
  match getDrillPlan s id with
  | none => (none, s)
  | some v =>
    let r := createDrillPlan s ⟨newDate, v.plan.flightAssignment, v.plan.commandId, v.plan.eventType⟩
    let s2 := v.files.foldl (fun st f =>
      (createDrillPlanFile st
        ⟨some r.1.id, f.commandId, f.fileName, f.filePath, f.fileSize, f.mimeType⟩).2) r.2
    (some r.1, s2)

/-- `getLastExecutionByFlight` (firebase-storage.ts 923-942): filter on both
fields, sort by `executedAt` descending, take the first element. -/
def getLastExecutionByFlight (s : FbStore) (commandId : Nat) (flight : Flight) :
    Option HistoryEntry :=
  (sortByDesc (fun h => h.executedAt)
    (s.history.filter
      (fun h => h.commandId = commandId ∧ h.flightType = flight.toFlightType))).head?

/-- `getDatabaseSize` (firebase-storage.ts 945-967): record count times 1024
bytes. -/
def getDatabaseSize (s : FbStore) : Nat :=
  (s.commands.length + s.plans.length + s.files.length + s.notes.length +
    s.history.length) * 1024

/-- `pruneOldData` (firebase-storage.ts 969-994): identical strategy to the
Firestore variant, and likewise never reads `getDatabaseSize`. -/
def pruneOldData (s : FbStore) : FbStore :=
  let plans := getAllDrillPlans s
  (groupByCommand plans).foldl (fun st g =>
    if 1 < g.2.length then
      ((sortByDesc (fun p => p.date) g.2).tail).foldl
        (fun st2 p => (deleteDrillPlan st2 p.id).2) st
    else st) s

end RealtimeStorage

/-! ### Claim C1 — execution-history fan-out on createPlan -/

/-- What C1 asserts about one `createPlan` call: the history grows by exactly
the fan-out rows of the new plan — two rows (alpha then tango) for `both`, one
row carrying the assignment itself otherwise, each dated with the plan's date,
and never a `both` row. -/
def fanoutOk (p : InsertDrillPlan) (np : DrillPlan)
    (oldHistory newHistory : List HistoryEntry) : Prop :=
  ∃ created : List HistoryEntry,
    newHistory = oldHistory ++ created ∧
    np.date = p.date ∧
    (∀ h ∈ created, h.commandId = p.commandId ∧ h.drillPlanId = np.id ∧
      h.executedAt = np.date ∧ h.flightType ≠ FlightType.both) ∧
    (p.flightAssignment = FlightType.both →
      created.map (fun h => h.flightType) = [FlightType.alpha, FlightType.tango]) ∧
    (p.flightAssignment ≠ FlightType.both →
      created.map (fun h => h.flightType) = [p.flightAssignment])

theorem rel_fanout (s : DatabaseStorage.Store) (p : InsertDrillPlan) :
    (DatabaseStorage.createDrillPlan s p).1 ∈ (DatabaseStorage.createDrillPlan s p).2.plans ∧
    fanoutOk p (DatabaseStorage.createDrillPlan s p).1 s.history
      (DatabaseStorage.createDrillPlan s p).2.history := by
  by_cases hb : p.flightAssignment = FlightType.both
  · simp only [DatabaseStorage.createDrillPlan, if_pos hb]
    refine ⟨by simp, ⟨[⟨s.nextId + 1, p.commandId, s.nextId, FlightType.alpha, p.date⟩,
      ⟨s.nextId + 2, p.commandId, s.nextId, FlightType.tango, p.date⟩], by simp, rfl, ?_, ?_, ?_⟩⟩
    · intro h hmem
      rcases List.mem_cons.mp hmem with rfl | hmem
      · exact ⟨rfl, rfl, rfl, by simp⟩
      · rcases List.mem_singleton.mp hmem with rfl
        exact ⟨rfl, rfl, rfl, by simp⟩
    · intro _; rfl
    · intro hn; exact absurd hb hn
  · simp only [DatabaseStorage.createDrillPlan, if_neg hb]
    refine ⟨by simp, ⟨[⟨s.nextId + 1, p.commandId, s.nextId, p.flightAssignment, p.date⟩],
      by simp [if_neg hb], rfl, ?_, ?_, ?_⟩⟩
    · intro h hmem
      rcases List.mem_singleton.mp hmem with rfl
      exact ⟨rfl, rfl, rfl, hb⟩
    · intro hyes; exact absurd hyes hb
    · intro _; rfl

theorem fs_fanout (s : FbStore) (p : InsertDrillPlan) :
    (FirestoreStorage.createDrillPlan s p).1 ∈ (FirestoreStorage.createDrillPlan s p).2.plans ∧
    fanoutOk p (FirestoreStorage.createDrillPlan s p).1 s.history
      (FirestoreStorage.createDrillPlan s p).2.history := by
  by_cases hb : p.flightAssignment = FlightType.both
  · simp only [FirestoreStorage.createDrillPlan, if_pos hb]
    refine ⟨by simp, ⟨[⟨s.nextId + 1, p.commandId, s.nextId, FlightType.alpha, p.date⟩,
      ⟨s.nextId + 2, p.commandId, s.nextId, FlightType.tango, p.date⟩], by simp, rfl, ?_, ?_, ?_⟩⟩
    · intro h hmem
      rcases List.mem_cons.mp hmem with rfl | hmem
      · exact ⟨rfl, rfl, rfl, by simp⟩
      · rcases List.mem_singleton.mp hmem with rfl
        exact ⟨rfl, rfl, rfl, by simp⟩
    · intro _; rfl
    · intro hn; exact absurd hb hn
  · simp only [FirestoreStorage.createDrillPlan, if_neg hb]
    refine ⟨by simp, ⟨[⟨s.nextId + 1, p.commandId, s.nextId, p.flightAssignment, p.date⟩],
      by simp [if_neg hb], rfl, ?_, ?_, ?_⟩⟩
    · intro h hmem
      rcases List.mem_singleton.mp hmem with rfl
      exact ⟨rfl, rfl, rfl, hb⟩
    · intro hyes; exact absurd hyes hb
    · intro _; rfl

/-- The Realtime Database `createDrillPlan` performs the same writes as the
Firestore one (only the id/timestamp encodings differ in the source). -/
theorem rt_create_eq_fs :
    RealtimeStorage.createDrillPlan = FirestoreStorage.createDrillPlan := rfl

/-- C1: on every backend, a successful `createPlan` with assignment `both`
creates exactly two history rows (one alpha, one tango) dated with the plan's
date; with a single-flight assignment it creates exactly one row with that
flight and date; no created row ever has flight `both`. -/
theorem claim_C1_history_fanout :
    (∀ (s : DatabaseStorage.Store) (p : InsertDrillPlan),
      (DatabaseStorage.createDrillPlan s p).1 ∈ (DatabaseStorage.createDrillPlan s p).2.plans ∧
      fanoutOk p (DatabaseStorage.createDrillPlan s p).1 s.history
        (DatabaseStorage.createDrillPlan s p).2.history) ∧
    (∀ (s : FbStore) (p : InsertDrillPlan),
      (FirestoreStorage.createDrillPlan s p).1 ∈ (FirestoreStorage.createDrillPlan s p).2.plans ∧
      fanoutOk p (FirestoreStorage.createDrillPlan s p).1 s.history
        (FirestoreStorage.createDrillPlan s p).2.history) ∧
    (∀ (s : FbStore) (p : InsertDrillPlan),
      (RealtimeStorage.createDrillPlan s p).1 ∈ (RealtimeStorage.createDrillPlan s p).2.plans ∧
      fanoutOk p (RealtimeStorage.createDrillPlan s p).1 s.history
        (RealtimeStorage.createDrillPlan s p).2.history) := by
  refine ⟨rel_fanout, fs_fanout, ?_⟩
  intro s p
  rw [rt_create_eq_fs]
  exact fs_fanout s p

/-- An empty relational store with allocator at 100 and clock at 5. -/
def exRelStore : DatabaseStorage.Store := ⟨[], [], [], [], [], 100, 5⟩

/-- An empty Firebase store with allocator at 100 and clock at 5. -/
def exFbStore : FbStore := ⟨[], [], [], [], [], [], 100, 5⟩

/-- A `both`-flights insert payload. -/
def exInsertBoth : InsertDrillPlan := ⟨20240507, FlightType.both, 7, EventType.drill⟩

/-- A tango-only insert payload. -/
def exInsertTango : InsertDrillPlan := ⟨20240604, FlightType.tango, 7, EventType.drill⟩

theorem claim_C1_history_fanout_witness :
    (∃ created : List HistoryEntry,
      (DatabaseStorage.createDrillPlan exRelStore exInsertBoth).2.history
        = exRelStore.history ++ created ∧
      created.map (fun h => h.flightType) = [FlightType.alpha, FlightType.tango]) ∧
    (∃ created : List HistoryEntry,
      (FirestoreStorage.createDrillPlan exFbStore exInsertTango).2.history
        = exFbStore.history ++ created ∧
      created.map (fun h => h.flightType) = [FlightType.tango]) := by
  constructor
  · obtain ⟨-, created, hEq, -, -, hBoth, -⟩ :=
      claim_C1_history_fanout.1 exRelStore exInsertBoth
    exact ⟨created, hEq, hBoth (by decide)⟩
  · obtain ⟨-, created, hEq, -, -, -, hSingle⟩ :=
      claim_C1_history_fanout.2.1 exFbStore exInsertTango
    exact ⟨created, hEq, by simpa using hSingle (by decide)⟩

/-! ### Claim C9 — last execution by flight -/

theorem sortByDesc_eq_nil_iff (k : α → Nat) (l : List α) :
    sortByDesc k l = [] ↔ l = [] := by
  constructor
  · intro h
    have hp := sortByDesc_perm k l
    rw [h] at hp
    exact hp.symm.eq_nil
  · intro h
    rw [h]
    rfl

theorem sortByDesc_head?_some (k : α → Nat) (l : List α) (e : α)
    (h : (sortByDesc k l).head? = some e) :
    e ∈ l ∧ ∀ y ∈ l, k y ≤ k e := by
  have hmem : e ∈ sortByDesc k l := by
    cases hs : sortByDesc k l with
    | nil => rw [hs] at h; cases h
    | cons x t =>
      rw [hs] at h
      have hx : x = e := by simpa using h
      exact List.mem_cons.mpr (Or.inl hx.symm)
  have hel : e ∈ l := (sortByDesc_perm k l).mem_iff.mp hmem
  obtain ⟨hd, t, hs, _, hge⟩ := sortByDesc_head_max k l e hel
  have hhd : hd = e := by rw [hs] at h; simpa using h
  exact ⟨hel, hhd ▸ hge⟩

/-- What C9 asserts about one `lastExecutionByFlight` call. -/
def lastExecOk (c : Nat) (fl : Flight) (history : List HistoryEntry)
    (r : Option HistoryEntry) : Prop :=
  (r = none ↔ ∀ e ∈ history, ¬ (e.commandId = c ∧ e.flightType = fl.toFlightType)) ∧
  (∀ e, r = some e → e ∈ history ∧ e.commandId = c ∧ e.flightType = fl.toFlightType ∧
    ∀ e' ∈ history, e'.commandId = c → e'.flightType = fl.toFlightType →
      e'.executedAt ≤ e.executedAt)

theorem lastExec_spec (c : Nat) (fl : Flight) (hist : List HistoryEntry) :
    lastExecOk c fl hist
      ((sortByDesc (fun h => h.executedAt)
        (hist.filter (fun h => h.commandId = c ∧ h.flightType = fl.toFlightType))).head?) := by
  constructor
  · rw [List.head?_eq_none_iff, sortByDesc_eq_nil_iff, List.filter_eq_nil_iff]
    simp
  · intro e he
    obtain ⟨hmem, hmax⟩ := sortByDesc_head?_some _ _ _ he
    have hmem' := List.mem_filter.mp hmem
    have hprop : e.commandId = c ∧ e.flightType = fl.toFlightType := by
      simpa using hmem'.2
    refine ⟨hmem'.1, hprop.1, hprop.2, ?_⟩
    intro e' he' hc hf
    exact hmax e' (List.mem_filter.mpr ⟨he', by simp [hc, hf]⟩)

/-- The Realtime Database `getLastExecutionByFlight` computes the same
function as the Firestore one. -/
theorem rt_lastExec_eq_fs :
    RealtimeStorage.getLastExecutionByFlight = FirestoreStorage.getLastExecutionByFlight := rfl

/-- C9: on every backend, `lastExecutionByFlight(commandId, flight)` returns
an entry matching both arguments whose `executedAt` is maximal among all
matching entries, or an empty result exactly when nothing matches. -/
theorem claim_C9_last_execution :
    (∀ (s : DatabaseStorage.Store) (c : Nat) (fl : Flight),
      lastExecOk c fl s.history (DatabaseStorage.getLastExecutionByFlight s c fl)) ∧
    (∀ (s : FbStore) (c : Nat) (fl : Flight),
      lastExecOk c fl s.history (FirestoreStorage.getLastExecutionByFlight s c fl)) ∧
    (∀ (s : FbStore) (c : Nat) (fl : Flight),
      lastExecOk c fl s.history (RealtimeStorage.getLastExecutionByFlight s c fl)) := by
  refine ⟨fun s c fl => lastExec_spec c fl s.history,
    fun s c fl => lastExec_spec c fl s.history, ?_⟩
  intro s c fl
  rw [rt_lastExec_eq_fs]
  exact lastExec_spec c fl s.history

/-- A store holding two alpha executions of command 7 and one tango one. -/
def exHistStore : FbStore :=
  { exFbStore with history :=
      [⟨1, 7, 2, FlightType.alpha, 100⟩, ⟨2, 7, 3, FlightType.alpha, 200⟩,
        ⟨3, 7, 3, FlightType.tango, 150⟩] }

theorem claim_C9_last_execution_witness :
    ∃ e, FirestoreStorage.getLastExecutionByFlight exHistStore 7 Flight.alpha = some e ∧
      e.commandId = 7 ∧ e.flightType = FlightType.alpha ∧ e.executedAt = 200 ∧
      ∀ e' ∈ exHistStore.history, e'.commandId = 7 → e'.flightType = FlightType.alpha →
        e'.executedAt ≤ e.executedAt := by
  have hsome : FirestoreStorage.getLastExecutionByFlight exHistStore 7 Flight.alpha
      = some ⟨2, 7, 3, FlightType.alpha, 200⟩ := by decide
  obtain ⟨-, hmax⟩ := claim_C9_last_execution.2.1 exHistStore 7 Flight.alpha
  obtain ⟨-, hc, hf, hle⟩ := hmax _ hsome
  exact ⟨_, hsome, hc, hf, rfl, hle⟩

/-! ### Claim C10 — the key-value getPlan joins notes by command -/

theorem fs_getPlan_eq (s : FbStore) (p : DrillPlan)
    (hnd : (s.plans.map (fun q => q.id)).Nodup) (hp : p ∈ s.plans) :
    FirestoreStorage.getDrillPlan s p.id =
      some ⟨p, FirestoreStorage.getDrillCommand s p.commandId,
        FirestoreStorage.getDrillPlanFiles s p.id,
        FirestoreStorage.getCommandNotes s p.commandId⟩ := by
  have hfind : s.plans.find? (fun q => q.id = p.id) = some p :=
    find?_key_eq_of_nodup (fun q => q.id) s.plans p p.id hnd hp rfl
  simp [FirestoreStorage.getDrillPlan, hfind]

theorem rt_getPlan_eq (s : FbStore) (p : DrillPlan) (c : DrillCommand)
    (hnd : (s.plans.map (fun q => q.id)).Nodup) (hp : p ∈ s.plans)
    (hcnd : (s.commands.map (fun q => q.id)).Nodup)
    (hc : c ∈ s.commands) (hcid : c.id = p.commandId) :
    RealtimeStorage.getDrillPlan s p.id =
      some ⟨p, c, RealtimeStorage.getDrillPlanFiles s p.id,
        RealtimeStorage.getCommandNotes s p.commandId⟩ := by
  have hfind : s.plans.find? (fun q => q.id = p.id) = some p :=
    find?_key_eq_of_nodup (fun q => q.id) s.plans p p.id hnd hp rfl
  have hcfind : s.commands.find? (fun q => q.id = p.commandId) = some c :=
    find?_key_eq_of_nodup (fun q => q.id) s.commands c p.commandId hcnd hc hcid
  simp [RealtimeStorage.getDrillPlan, RealtimeStorage.getDrillCommand, hfind, hcfind]

theorem mem_getCommandNotes (s : FbStore) (c : Nat) (n : FirebaseNote) :
    n ∈ FirestoreStorage.getCommandNotes s c ↔ n ∈ s.notes ∧ n.commandId = c := by
  rw [FirestoreStorage.getCommandNotes, sortByAsc, mem_sortStable, List.mem_filter]
  simp

/-- C10: in both key-value adapters the `notes` field of the joined `getPlan`
view holds every note whose `commandId` equals the plan's `commandId`, so two
plans sharing a command get identical notes lists. -/
theorem claim_C10_notes_by_command :
    (∀ (s : FbStore) (p : DrillPlan), (s.plans.map (fun q => q.id)).Nodup → p ∈ s.plans →
      ∃ v : FirestoreStorage.PlanView, FirestoreStorage.getDrillPlan s p.id = some v ∧
        (∀ n, n ∈ v.notes ↔ n ∈ s.notes ∧ n.commandId = p.commandId)) ∧
    (∀ (s : FbStore) (p1 p2 : DrillPlan), (s.plans.map (fun q => q.id)).Nodup →
      p1 ∈ s.plans → p2 ∈ s.plans → p1.commandId = p2.commandId →
      Option.map (fun v => v.notes) (FirestoreStorage.getDrillPlan s p1.id)
        = Option.map (fun v => v.notes) (FirestoreStorage.getDrillPlan s p2.id)) ∧
    (∀ (s : FbStore) (p : DrillPlan) (c : DrillCommand),
      (s.plans.map (fun q => q.id)).Nodup → (s.commands.map (fun q => q.id)).Nodup →
      p ∈ s.plans → c ∈ s.commands → c.id = p.commandId →
      ∃ v : RealtimeStorage.PlanView, RealtimeStorage.getDrillPlan s p.id = some v ∧
        (∀ n, n ∈ v.notes ↔ n ∈ s.notes ∧ n.commandId = p.commandId)) ∧
    (∀ (s : FbStore) (p1 p2 : DrillPlan) (c : DrillCommand),
      (s.plans.map (fun q => q.id)).Nodup → (s.commands.map (fun q => q.id)).Nodup →
      p1 ∈ s.plans → p2 ∈ s.plans → c ∈ s.commands → c.id = p1.commandId →
      p1.commandId = p2.commandId →
      Option.map (fun v => v.notes) (RealtimeStorage.getDrillPlan s p1.id)
        = Option.map (fun v => v.notes) (RealtimeStorage.getDrillPlan s p2.id)) := by
  refine ⟨?_, ?_, ?_, ?_⟩
  · intro s p hnd hp
    exact ⟨_, fs_getPlan_eq s p hnd hp, fun n => mem_getCommandNotes s p.commandId n⟩
  · intro s p1 p2 hnd hp1 hp2 hcc
    rw [fs_getPlan_eq s p1 hnd hp1, fs_getPlan_eq s p2 hnd hp2]
    simp [hcc]
  · intro s p c hnd hcnd hp hc hcid
    exact ⟨_, rt_getPlan_eq s p c hnd hp hcnd hc hcid,
      fun n => mem_getCommandNotes s p.commandId n⟩
  · intro s p1 p2 c hnd hcnd hp1 hp2 hc hcid hcc
    rw [rt_getPlan_eq s p1 c hnd hp1 hcnd hc hcid,
      rt_getPlan_eq s p2 c hnd hp2 hcnd hc (by rw [hcid]; exact hcc)]
    simp [RealtimeStorage.getCommandNotes, hcc]

/-- A store with one command, two plans of that command and two notes. -/
def exNotesStore : FbStore :=
  { exFbStore with
      commands := [⟨7, "cmd", EventType.drill, none, 0⟩],
      plans := [⟨1, 10, FlightType.alpha, 7, EventType.drill, 0, 0⟩,
        ⟨2, 20, FlightType.tango, 7, EventType.drill, 0, 0⟩],
      notes := [⟨3, 7, "n1", "a", 1⟩, ⟨4, 9, "n2", "b", 2⟩] }

theorem claim_C10_notes_by_command_witness :
    (∃ v : FirestoreStorage.PlanView,
      FirestoreStorage.getDrillPlan exNotesStore 1 = some v ∧
        (⟨3, 7, "n1", "a", 1⟩ : FirebaseNote) ∈ v.notes ∧
        (⟨4, 9, "n2", "b", 2⟩ : FirebaseNote) ∉ v.notes) ∧
    Option.map (fun v => v.notes) (FirestoreStorage.getDrillPlan exNotesStore 1)
      = Option.map (fun v => v.notes) (FirestoreStorage.getDrillPlan exNotesStore 2) ∧
    Option.map (fun v => v.notes) (RealtimeStorage.getDrillPlan exNotesStore 1)
      = Option.map (fun v => v.notes) (RealtimeStorage.getDrillPlan exNotesStore 2) := by
  have hp1 : (⟨1, 10, FlightType.alpha, 7, EventType.drill, 0, 0⟩ : DrillPlan)
      ∈ exNotesStore.plans := by decide
  have hp2 : (⟨2, 20, FlightType.tango, 7, EventType.drill, 0, 0⟩ : DrillPlan)
      ∈ exNotesStore.plans := by decide
  refine ⟨?_, ?_, ?_⟩
  · obtain ⟨v, hv, hiff⟩ := claim_C10_notes_by_command.1 exNotesStore
      ⟨1, 10, FlightType.alpha, 7, EventType.drill, 0, 0⟩ (by decide) hp1
    refine ⟨v, hv, ?_, ?_⟩
    · exact (hiff _).mpr ⟨by decide, by decide⟩
    · intro hmem
      have := (hiff _).mp hmem
      exact absurd this.2 (by decide)
  · exact claim_C10_notes_by_command.2.1 exNotesStore _ _ (by decide) hp1 hp2 rfl
  · exact claim_C10_notes_by_command.2.2.2 exNotesStore _ _
      ⟨7, "cmd", EventType.drill, none, 0⟩ (by decide) (by decide) hp1 hp2
      (by decide) (by decide) rfl

/-! ### Claim C6 — deleting a nonexistent id -/

theorem filter_id_ne_self {α : Type} (key : α → Nat) (l : List α) (i : Nat)
    (h : ∀ x ∈ l, key x ≠ i) : l.filter (fun x => ¬ key x = i) = l := by
  rw [List.filter_eq_self]
  intro a ha
  simpa using h a ha

theorem any_id_false {α : Type} (key : α → Nat) (l : List α) (i : Nat)
    (h : ∀ x ∈ l, key x ≠ i) : l.any (fun x => key x = i) = false := by
  simp only [List.any_eq_false]
  intro x hx
  simpa using h x hx

theorem rt_deletePlan_eq_fs :
    RealtimeStorage.deleteDrillPlan = FirestoreStorage.deleteDrillPlan := rfl

theorem rt_deleteCommand_eq_fs :
    RealtimeStorage.deleteDrillCommand = FirestoreStorage.deleteDrillCommand := rfl

theorem rt_deleteNote_eq_fs :
    RealtimeStorage.deleteCommandNote = FirestoreStorage.deleteCommandNote := rfl

theorem rt_deleteFile_eq_fs :
    RealtimeStorage.deleteDrillPlanFile = FirestoreStorage.deleteDrillPlanFile := rfl

theorem fs_deletePlan_missing (s : FbStore) (i : Nat)
    (h : ∀ x ∈ s.plans, x.id ≠ i) :
    FirestoreStorage.deleteDrillPlan s i = (true, s) := by
  rw [FirestoreStorage.deleteDrillPlan, filter_id_ne_self (fun p => p.id) s.plans i h]

theorem fs_deleteCommand_missing (s : FbStore) (i : Nat)
    (h : ∀ x ∈ s.commands, x.id ≠ i) :
    FirestoreStorage.deleteDrillCommand s i = (true, s) := by
  rw [FirestoreStorage.deleteDrillCommand, filter_id_ne_self (fun c => c.id) s.commands i h]

theorem fs_deleteNote_missing (s : FbStore) (i : Nat)
    (h : ∀ x ∈ s.notes, x.id ≠ i) :
    FirestoreStorage.deleteCommandNote s i = (true, s) := by
  rw [FirestoreStorage.deleteCommandNote, filter_id_ne_self (fun n => n.id) s.notes i h]

theorem fs_deleteFile_missing (s : FbStore) (i : Nat)
    (h : ∀ x ∈ s.files, x.id ≠ i) :
    FirestoreStorage.deleteDrillPlanFile s i = (true, s) := by
  have hfind : s.files.find? (fun f => f.id = i) = none :=
    find?_key_eq_none (fun f => f.id) s.files i h
  rw [FirestoreStorage.deleteDrillPlanFile, FirestoreStorage.getFileById, hfind]
  rw [filter_id_ne_self (fun f => f.id) s.files i h]

/-- C6 counterexample: on the Firestore adapter (`deleteDoc` succeeds even for
a missing doc) deleting a nonexistent plan id returns `true`, not `false`. -/
theorem claim_C6_counterexample :
    (∀ x ∈ exFbStore.plans, x.id ≠ 99) ∧
    (FirestoreStorage.deleteDrillPlan exFbStore 99).1 = true := by
  decide

/-- C6 amended: every delete of a nonexistent id raises no error and leaves
the store unchanged on every backend; the relational adapter returns `false`,
but the Firestore and Realtime Database adapters return `true` because the
underlying `deleteDoc`/`remove` succeed as no-ops. -/
theorem claim_C6_amended :
    (∀ (s : DatabaseStorage.Store) (i : Nat),
      ((∀ x ∈ s.plans, x.id ≠ i) → DatabaseStorage.deleteDrillPlan s i = (false, s)) ∧
      ((∀ x ∈ s.commands, x.id ≠ i) →
        DatabaseStorage.deleteDrillCommand s i = Except.ok (false, s)) ∧
      ((∀ x ∈ s.files, x.id ≠ i) → DatabaseStorage.deleteDrillPlanFile s i = (false, s)) ∧
      ((∀ x ∈ s.notes, x.id ≠ i) → DatabaseStorage.deleteDrillPlanNote s i = (false, s))) ∧
    (∀ (s : FbStore) (i : Nat),
      ((∀ x ∈ s.plans, x.id ≠ i) → FirestoreStorage.deleteDrillPlan s i = (true, s)) ∧
      ((∀ x ∈ s.commands, x.id ≠ i) → FirestoreStorage.deleteDrillCommand s i = (true, s)) ∧
      ((∀ x ∈ s.files, x.id ≠ i) → FirestoreStorage.deleteDrillPlanFile s i = (true, s)) ∧
      ((∀ x ∈ s.notes, x.id ≠ i) → FirestoreStorage.deleteCommandNote s i = (true, s))) ∧
    (∀ (s : FbStore) (i : Nat),
      ((∀ x ∈ s.plans, x.id ≠ i) → RealtimeStorage.deleteDrillPlan s i = (true, s)) ∧
      ((∀ x ∈ s.commands, x.id ≠ i) → RealtimeStorage.deleteDrillCommand s i = (true, s)) ∧
      ((∀ x ∈ s.files, x.id ≠ i) → RealtimeStorage.deleteDrillPlanFile s i = (true, s)) ∧
      ((∀ x ∈ s.notes, x.id ≠ i) → RealtimeStorage.deleteCommandNote s i = (true, s))) := by
  refine ⟨?_, ?_, ?_⟩
  · intro s i
    refine ⟨?_, ?_, ?_, ?_⟩
    · intro h
      rw [DatabaseStorage.deleteDrillPlan, any_id_false (fun p => p.id) s.plans i h]
      rfl
    · intro h
      rw [DatabaseStorage.deleteDrillCommand, any_id_false (fun c => c.id) s.commands i h]
      rfl
    · intro h
      rw [DatabaseStorage.deleteDrillPlanFile, any_id_false (fun f => f.id) s.files i h]
      rfl
    · intro h
      rw [DatabaseStorage.deleteDrillPlanNote, any_id_false (fun n => n.id) s.notes i h]
      rfl
  · intro s i
    exact ⟨fs_deletePlan_missing s i, fs_deleteCommand_missing s i,
      fs_deleteFile_missing s i, fs_deleteNote_missing s i⟩
  · intro s i
    rw [rt_deletePlan_eq_fs, rt_deleteCommand_eq_fs, rt_deleteNote_eq_fs, rt_deleteFile_eq_fs]
    exact ⟨fs_deletePlan_missing s i, fs_deleteCommand_missing s i,
      fs_deleteFile_missing s i, fs_deleteNote_missing s i⟩

theorem claim_C6_amended_witness :
    DatabaseStorage.deleteDrillPlan exRelStore 99 = (false, exRelStore) ∧
    DatabaseStorage.deleteDrillCommand exRelStore 99 = Except.ok (false, exRelStore) ∧
    DatabaseStorage.deleteDrillPlanFile exRelStore 99 = (false, exRelStore) ∧
    DatabaseStorage.deleteDrillPlanNote exRelStore 99 = (false, exRelStore) ∧
    FirestoreStorage.deleteDrillPlan exFbStore 99 = (true, exFbStore) ∧
    FirestoreStorage.deleteDrillCommand exFbStore 99 = (true, exFbStore) ∧
    FirestoreStorage.deleteDrillPlanFile exFbStore 99 = (true, exFbStore) ∧
    FirestoreStorage.deleteCommandNote exFbStore 99 = (true, exFbStore) ∧
    RealtimeStorage.deleteDrillPlan exFbStore 99 = (true, exFbStore) ∧
    RealtimeStorage.deleteDrillCommand exFbStore 99 = (true, exFbStore) ∧
    RealtimeStorage.deleteDrillPlanFile exFbStore 99 = (true, exFbStore) ∧
    RealtimeStorage.deleteCommandNote exFbStore 99 = (true, exFbStore) := by
  obtain ⟨hrel, hfs, hrt⟩ := claim_C6_amended
  obtain ⟨r1, r2, r3, r4⟩ := hrel exRelStore 99
  obtain ⟨f1, f2, f3, f4⟩ := hfs exFbStore 99
  obtain ⟨t1, t2, t3, t4⟩ := hrt exFbStore 99
  exact ⟨r1 (by decide), r2 (by decide), r3 (by decide), r4 (by decide),
    f1 (by decide), f2 (by decide), f3 (by decide), f4 (by decide),
    t1 (by decide), t2 (by decide), t3 (by decide), t4 (by decide)⟩

/-! ### Claims C4 and C5 — cascade deletion -/

/-- A store with one command (id 7), one plan of it (id 1), one file and one
history row attached to the plan, and one note attached to the command. -/
def exCascadeStore : FbStore :=
  { exFbStore with
      commands := [⟨7, "cmd", EventType.drill, none, 0⟩],
      plans := [⟨1, 10, FlightType.alpha, 7, EventType.drill, 0, 0⟩],
      files := [⟨2, some 1, some 7, "f", "uploads/f", 3, "text", 0⟩],
      notes := [⟨3, 7, "n", "a", 0⟩],
      history := [⟨4, 7, 1, FlightType.alpha, 10⟩] }

/-- C4 counterexample: the Firestore `deleteDrillCommand` returns `true` while
a plan (and a file, a note and a history row) referencing the command
survives. -/
theorem claim_C4_counterexample :
    (∃ c ∈ exCascadeStore.commands, c.id = 7) ∧
    (FirestoreStorage.deleteDrillCommand exCascadeStore 7).1 = true ∧
    (∃ p ∈ (FirestoreStorage.deleteDrillCommand exCascadeStore 7).2.plans,
      p.commandId = 7) ∧
    (∃ n ∈ (FirestoreStorage.deleteDrillCommand exCascadeStore 7).2.notes,
      n.commandId = 7) ∧
    (∃ h ∈ (FirestoreStorage.deleteDrillCommand exCascadeStore 7).2.history,
      h.commandId = 7) := by
  decide

/-- C4 amended: only the relational adapter cascades — and its
plans-to-commands foreign key is `ON DELETE no action`, so a command still
referenced by a plan cannot be deleted at all (constraint violation); when the
relational delete does return `true`, no plan, file or history row referencing
the command remains (the migration's notes table has no command reference).
The Firestore and Realtime Database adapters delete only the command record,
return `true`, and leave every other collection untouched. -/
theorem claim_C4_amended :
    (∀ (s : DatabaseStorage.Store) (i : Nat),
      (s.commands.any (fun c => c.id = i) = true →
        s.plans.any (fun p => p.commandId = i) = true →
        DatabaseStorage.deleteDrillCommand s i = Except.error ()) ∧
      (∀ b s2, DatabaseStorage.deleteDrillCommand s i = Except.ok (b, s2) → b = true →
        (∀ p ∈ s2.plans, p.commandId ≠ i) ∧
        (∀ f ∈ s2.files, f.commandId ≠ some i) ∧
        (∀ h ∈ s2.history, h.commandId ≠ i))) ∧
    (∀ (s : FbStore) (i : Nat),
      (FirestoreStorage.deleteDrillCommand s i).1 = true ∧
      (FirestoreStorage.deleteDrillCommand s i).2.plans = s.plans ∧
      (FirestoreStorage.deleteDrillCommand s i).2.files = s.files ∧
      (FirestoreStorage.deleteDrillCommand s i).2.notes = s.notes ∧
      (FirestoreStorage.deleteDrillCommand s i).2.history = s.history) ∧
    (∀ (s : FbStore) (i : Nat),
      (RealtimeStorage.deleteDrillCommand s i).1 = true ∧
      (RealtimeStorage.deleteDrillCommand s i).2.plans = s.plans ∧
      (RealtimeStorage.deleteDrillCommand s i).2.files = s.files ∧
      (RealtimeStorage.deleteDrillCommand s i).2.notes = s.notes ∧
      (RealtimeStorage.deleteDrillCommand s i).2.history = s.history) := by
  refine ⟨?_, ?_, ?_⟩
  · intro s i
    constructor
    · intro hc hp
      rw [DatabaseStorage.deleteDrillCommand, if_pos hc, if_pos hp]
    · intro b s2 heq hb
      by_cases hc : s.commands.any (fun c => c.id = i) = true
      · by_cases hp : s.plans.any (fun p => p.commandId = i) = true
        · rw [DatabaseStorage.deleteDrillCommand, if_pos hc, if_pos hp] at heq
          cases heq
        · rw [DatabaseStorage.deleteDrillCommand, if_pos hc,
            if_neg hp] at heq
          injection heq with heq
          have hs2 : s2 = { s with
              commands := s.commands.filter (fun c => ¬ c.id = i),
              files := s.files.filter (fun f => ¬ f.commandId = some i),
              history := s.history.filter (fun h => ¬ h.commandId = i) } :=
            (congrArg Prod.snd heq).symm
          subst hs2
          refine ⟨?_, ?_, ?_⟩
          · intro p hpm
            have := List.any_eq_false.mp (Bool.eq_false_iff.mpr hp) p hpm
            simpa using this
          · intro f hf
            have := (List.mem_filter.mp hf).2
            simpa using this
          · intro h hh
            have := (List.mem_filter.mp hh).2
            simpa using this
      · rw [DatabaseStorage.deleteDrillCommand, if_neg hc] at heq
        injection heq with heq
        have : b = false := (congrArg Prod.fst heq).symm
        rw [this] at hb
        cases hb
  · intro s i
    exact ⟨rfl, rfl, rfl, rfl, rfl⟩
  · intro s i
    exact ⟨rfl, rfl, rfl, rfl, rfl⟩

/-- A relational store with command 7, no plans, and a file plus a history row
referencing command 7. -/
def exRelCascadeStore : DatabaseStorage.Store :=
  ⟨[⟨7, "cmd", EventType.drill, none, 0⟩], [],
    [⟨2, none, some 7, "f", "uploads/f", 3, "text", 0⟩], [],
    [⟨4, 7, 1, FlightType.alpha, 10⟩], 100, 5⟩

/-- A relational store with command 7 and a plan referencing it. -/
def exRelFkStore : DatabaseStorage.Store :=
  ⟨[⟨7, "cmd", EventType.drill, none, 0⟩],
    [⟨1, 10, FlightType.alpha, 7, EventType.drill, 0, 0⟩], [], [], [], 100, 5⟩

/-- The state left by the relational cascade on `exRelCascadeStore`. -/
def exRelCascadeResult : DatabaseStorage.Store := ⟨[], [], [], [], [], 100, 5⟩

theorem claim_C4_amended_witness :
    DatabaseStorage.deleteDrillCommand exRelFkStore 7 = Except.error () ∧
    ((∀ p ∈ exRelCascadeResult.plans, p.commandId ≠ 7) ∧
      (∀ f ∈ exRelCascadeResult.files, f.commandId ≠ some 7) ∧
      (∀ h ∈ exRelCascadeResult.history, h.commandId ≠ 7)) ∧
    (FirestoreStorage.deleteDrillCommand exCascadeStore 7).1 = true ∧
    (FirestoreStorage.deleteDrillCommand exCascadeStore 7).2.plans = exCascadeStore.plans := by
  obtain ⟨hrel, hfs, -⟩ := claim_C4_amended
  refine ⟨(hrel exRelFkStore 7).1 (by decide) (by decide), ?_, ?_, ?_⟩
  · exact (hrel exRelCascadeStore 7).2 true exRelCascadeResult rfl rfl
  · exact (hfs exCascadeStore 7).1
  · exact (hfs exCascadeStore 7).2.1

/-- C5 counterexample: the Firestore `deleteDrillPlan` returns `true` while a
file and a history row referencing the plan survive. -/
theorem claim_C5_counterexample :
    (∃ p ∈ exCascadeStore.plans, p.id = 1) ∧
    (FirestoreStorage.deleteDrillPlan exCascadeStore 1).1 = true ∧
    (∃ f ∈ (FirestoreStorage.deleteDrillPlan exCascadeStore 1).2.files,
      f.drillPlanId = some 1) ∧
    (∃ h ∈ (FirestoreStorage.deleteDrillPlan exCascadeStore 1).2.history,
      h.drillPlanId = 1) := by
  decide

/-- C5 amended: only the relational adapter cascades — whenever its
`deleteDrillPlan` returns `true`, no file, note or history row referencing the
plan remains.  The Firestore and Realtime Database adapters remove only the
plan record and return `true`, leaving files, notes and history untouched. -/
theorem claim_C5_amended :
    (∀ (s : DatabaseStorage.Store) (i : Nat),
      (DatabaseStorage.deleteDrillPlan s i).1 = true →
        (∀ f ∈ (DatabaseStorage.deleteDrillPlan s i).2.files, f.drillPlanId ≠ some i) ∧
        (∀ n ∈ (DatabaseStorage.deleteDrillPlan s i).2.notes, n.drillPlanId ≠ i) ∧
        (∀ h ∈ (DatabaseStorage.deleteDrillPlan s i).2.history, h.drillPlanId ≠ i) ∧
        (∀ p ∈ (DatabaseStorage.deleteDrillPlan s i).2.plans, p.id ≠ i)) ∧
    (∀ (s : FbStore) (i : Nat),
      (FirestoreStorage.deleteDrillPlan s i).1 = true ∧
      (FirestoreStorage.deleteDrillPlan s i).2.files = s.files ∧
      (FirestoreStorage.deleteDrillPlan s i).2.notes = s.notes ∧
      (FirestoreStorage.deleteDrillPlan s i).2.history = s.history ∧
      (FirestoreStorage.deleteDrillPlan s i).2.plans
        = s.plans.filter (fun p => ¬ p.id = i)) ∧
    (∀ (s : FbStore) (i : Nat),
      (RealtimeStorage.deleteDrillPlan s i).1 = true ∧
      (RealtimeStorage.deleteDrillPlan s i).2.files = s.files ∧
      (RealtimeStorage.deleteDrillPlan s i).2.notes = s.notes ∧
      (RealtimeStorage.deleteDrillPlan s i).2.history = s.history ∧
      (RealtimeStorage.deleteDrillPlan s i).2.plans
        = s.plans.filter (fun p => ¬ p.id = i)) := by
  refine ⟨?_, ?_, ?_⟩
  · intro s i htrue
    by_cases hany : s.plans.any (fun p => p.id = i) = true
    · rw [DatabaseStorage.deleteDrillPlan, if_pos hany]
      refine ⟨?_, ?_, ?_, ?_⟩
      · intro f hf
        have := (List.mem_filter.mp hf).2
        simpa using this
      · intro n hn
        have := (List.mem_filter.mp hn).2
        simpa using this
      · intro h hh
        have := (List.mem_filter.mp hh).2
        simpa using this
      · intro p hp
        have := (List.mem_filter.mp hp).2
        simpa using this
    · rw [DatabaseStorage.deleteDrillPlan, if_neg hany] at htrue
      cases htrue
  · intro s i
    exact ⟨rfl, rfl, rfl, rfl, rfl⟩
  · intro s i
    exact ⟨rfl, rfl, rfl, rfl, rfl⟩

/-- A relational store with plan 1 plus a file, note and history row attached
to it. -/
def exRelPlanStore : DatabaseStorage.Store :=
  ⟨[⟨7, "cmd", EventType.drill, none, 0⟩],
    [⟨1, 10, FlightType.alpha, 7, EventType.drill, 0, 0⟩],
    [⟨2, some 1, some 7, "f", "uploads/f", 3, "text", 0⟩],
    [⟨3, 1, "n", "a", 0⟩],
    [⟨4, 7, 1, FlightType.alpha, 10⟩], 100, 5⟩

theorem claim_C5_amended_witness :
    ((∀ f ∈ (DatabaseStorage.deleteDrillPlan exRelPlanStore 1).2.files,
        f.drillPlanId ≠ some 1) ∧
      (∀ n ∈ (DatabaseStorage.deleteDrillPlan exRelPlanStore 1).2.notes,
        n.drillPlanId ≠ 1) ∧
      (∀ h ∈ (DatabaseStorage.deleteDrillPlan exRelPlanStore 1).2.history,
        h.drillPlanId ≠ 1) ∧
      (∀ p ∈ (DatabaseStorage.deleteDrillPlan exRelPlanStore 1).2.plans, p.id ≠ 1)) ∧
    (FirestoreStorage.deleteDrillPlan exCascadeStore 1).1 = true ∧
    (FirestoreStorage.deleteDrillPlan exCascadeStore 1).2.files = exCascadeStore.files := by
  obtain ⟨hrel, hfs, -⟩ := claim_C5_amended
  exact ⟨hrel exRelPlanStore 1 (by decide), (hfs exCascadeStore 1).1,
    (hfs exCascadeStore 1).2.1⟩

/-! ### Claims C7 and C8 — plan duplication -/

theorem rel_create_fst (s : DatabaseStorage.Store) (ins : InsertDrillPlan) :
    (DatabaseStorage.createDrillPlan s ins).1 =
      ⟨s.nextId, ins.date, ins.flightAssignment, ins.commandId, ins.eventType, s.now, s.now⟩ := by
  rw [DatabaseStorage.createDrillPlan]
  split <;> rfl

theorem rel_create_files (s : DatabaseStorage.Store) (ins : InsertDrillPlan) :
    (DatabaseStorage.createDrillPlan s ins).2.files = s.files := by
  rw [DatabaseStorage.createDrillPlan]
  split <;> rfl

theorem rel_create_notes (s : DatabaseStorage.Store) (ins : InsertDrillPlan) :
    (DatabaseStorage.createDrillPlan s ins).2.notes = s.notes := by
  rw [DatabaseStorage.createDrillPlan]
  split <;> rfl

theorem rel_create_plans (s : DatabaseStorage.Store) (ins : InsertDrillPlan) :
    (DatabaseStorage.createDrillPlan s ins).2.plans
      = s.plans ++ [(DatabaseStorage.createDrillPlan s ins).1] := by
  rw [DatabaseStorage.createDrillPlan]
  split <;> rfl

theorem fs_create_fst (s : FbStore) (ins : InsertDrillPlan) :
    (FirestoreStorage.createDrillPlan s ins).1 =
      ⟨s.nextId, ins.date, ins.flightAssignment, ins.commandId, ins.eventType, s.now, s.now⟩ := by
  rw [FirestoreStorage.createDrillPlan]
  split <;> rfl

theorem fs_create_files (s : FbStore) (ins : InsertDrillPlan) :
    (FirestoreStorage.createDrillPlan s ins).2.files = s.files := by
  rw [FirestoreStorage.createDrillPlan]
  split <;> rfl

theorem fs_create_notes (s : FbStore) (ins : InsertDrillPlan) :
    (FirestoreStorage.createDrillPlan s ins).2.notes = s.notes := by
  rw [FirestoreStorage.createDrillPlan]
  split <;> rfl

theorem fs_create_plans (s : FbStore) (ins : InsertDrillPlan) :
    (FirestoreStorage.createDrillPlan s ins).2.plans
      = s.plans ++ [(FirestoreStorage.createDrillPlan s ins).1] := by
  rw [FirestoreStorage.createDrillPlan]
  split <;> rfl

/-- The (plan reference, storage locator) projection used to compare file
tables across a duplication. -/
def fileRef (f : DrillPlanFile) : Option Nat × String := (f.drillPlanId, f.filePath)

theorem rel_copyFiles_files (npid : Nat) (fl : List DrillPlanFile)
    (t : DatabaseStorage.Store) :
    ((fl.foldl (fun st f => (DatabaseStorage.createDrillPlanFile st
        ⟨some npid, f.commandId, f.fileName, f.filePath, f.fileSize, f.mimeType⟩).2) t).files).map fileRef
      = t.files.map fileRef ++ fl.map (fun f => (some npid, f.filePath)) := by
  induction fl generalizing t with
  | nil => simp
  | cons f fl ih =>
    rw [List.foldl_cons, ih]
    simp [DatabaseStorage.createDrillPlanFile, fileRef]

theorem rel_copyFiles_notes (npid : Nat) (fl : List DrillPlanFile)
    (t : DatabaseStorage.Store) :
    (fl.foldl (fun st f => (DatabaseStorage.createDrillPlanFile st
        ⟨some npid, f.commandId, f.fileName, f.filePath, f.fileSize, f.mimeType⟩).2) t).notes
      = t.notes := by
  induction fl generalizing t with
  | nil => rfl
  | cons f fl ih =>
    rw [List.foldl_cons, ih]
    rfl

theorem rel_copyFiles_plans (npid : Nat) (fl : List DrillPlanFile)
    (t : DatabaseStorage.Store) :
    (fl.foldl (fun st f => (DatabaseStorage.createDrillPlanFile st
        ⟨some npid, f.commandId, f.fileName, f.filePath, f.fileSize, f.mimeType⟩).2) t).plans
      = t.plans := by
  induction fl generalizing t with
  | nil => rfl
  | cons f fl ih =>
    rw [List.foldl_cons, ih]
    rfl

/-- The (plan reference, content, author) projection for note tables. -/
def noteRef (n : DrillPlanNote) : Nat × String × String := (n.drillPlanId, n.content, n.authorName)

theorem rel_copyNotes_notes (npid : Nat) (ns : List DrillPlanNote)
    (t : DatabaseStorage.Store) :
    ((ns.foldl (fun st n => (DatabaseStorage.createDrillPlanNote st
        ⟨npid, n.content, n.authorName⟩).2) t).notes).map noteRef
      = t.notes.map noteRef ++ ns.map (fun n => (npid, n.content, n.authorName)) := by
  induction ns generalizing t with
  | nil => simp
  | cons n ns ih =>
    rw [List.foldl_cons, ih]
    simp [DatabaseStorage.createDrillPlanNote, noteRef]

theorem rel_copyNotes_files (npid : Nat) (ns : List DrillPlanNote)
    (t : DatabaseStorage.Store) :
    (ns.foldl (fun st n => (DatabaseStorage.createDrillPlanNote st
        ⟨npid, n.content, n.authorName⟩).2) t).files
      = t.files := by
  induction ns generalizing t with
  | nil => rfl
  | cons n ns ih =>
    rw [List.foldl_cons, ih]
    rfl

theorem rel_copyNotes_plans (npid : Nat) (ns : List DrillPlanNote)
    (t : DatabaseStorage.Store) :
    (ns.foldl (fun st n => (DatabaseStorage.createDrillPlanNote st
        ⟨npid, n.content, n.authorName⟩).2) t).plans
      = t.plans := by
  induction ns generalizing t with
  | nil => rfl
  | cons n ns ih =>
    rw [List.foldl_cons, ih]
    rfl

theorem fb_copyFiles_files (npid : Nat) (fl : List DrillPlanFile) (t : FbStore) :
    ((fl.foldl (fun st f => (FirestoreStorage.createDrillPlanFile st
        ⟨some npid, f.commandId, f.fileName, f.filePath, f.fileSize, f.mimeType⟩).2) t).files).map fileRef
      = t.files.map fileRef ++ fl.map (fun f => (some npid, f.filePath)) := by
  induction fl generalizing t with
  | nil => simp
  | cons f fl ih =>
    rw [List.foldl_cons, ih]
    simp [FirestoreStorage.createDrillPlanFile, fileRef]

theorem fb_copyFiles_notes (npid : Nat) (fl : List DrillPlanFile) (t : FbStore) :
    (fl.foldl (fun st f => (FirestoreStorage.createDrillPlanFile st
        ⟨some npid, f.commandId, f.fileName, f.filePath, f.fileSize, f.mimeType⟩).2) t).notes
      = t.notes := by
  induction fl generalizing t with
  | nil => rfl
  | cons f fl ih =>
    rw [List.foldl_cons, ih]
    rfl

theorem fb_copyFiles_plans (npid : Nat) (fl : List DrillPlanFile) (t : FbStore) :
    (fl.foldl (fun st f => (FirestoreStorage.createDrillPlanFile st
        ⟨some npid, f.commandId, f.fileName, f.filePath, f.fileSize, f.mimeType⟩).2) t).plans
      = t.plans := by
  induction fl generalizing t with
  | nil => rfl
  | cons f fl ih =>
    rw [List.foldl_cons, ih]
    rfl

theorem rt_createFile_eq_fs :
    RealtimeStorage.createDrillPlanFile = FirestoreStorage.createDrillPlanFile := rfl

theorem countP_fileRef (l : List DrillPlanFile) (k : Nat) :
    l.countP (fun f => f.drillPlanId = some k)
      = (l.map fileRef).countP (fun pr => pr.1 = some k) := by
  rw [List.countP_map]
  rfl

theorem rel_duplicate_spec (s : DatabaseStorage.Store) (d2 : Nat) (p : DrillPlan)
    (hnd : (s.plans.map (fun q => q.id)).Nodup) (hp : p ∈ s.plans)
    (hfref : ∀ f ∈ s.files, ∀ q, f.drillPlanId = some q → q < s.nextId)
    (hcmd : ∃ c ∈ s.commands, c.id = p.commandId) :
    ∃ np, (DatabaseStorage.duplicateDrillPlan s p.id d2).1 = some np ∧
      np.commandId = p.commandId ∧ np.flightAssignment = p.flightAssignment ∧
      np.eventType = p.eventType ∧ np.date = d2 ∧
      np ∈ (DatabaseStorage.duplicateDrillPlan s p.id d2).2.plans ∧
      ((DatabaseStorage.duplicateDrillPlan s p.id d2).2.files).map fileRef
        = s.files.map fileRef
          ++ (DatabaseStorage.getDrillPlanFiles s p.id).map (fun f => (some np.id, f.filePath)) ∧
      ((DatabaseStorage.duplicateDrillPlan s p.id d2).2.files).countP
          (fun f => f.drillPlanId = some np.id)
        = s.files.countP (fun f => f.drillPlanId = some p.id) := by
  have hfind : s.plans.find? (fun q => q.id = p.id) = some p :=
    find?_key_eq_of_nodup (fun q => q.id) s.plans p p.id hnd hp rfl
  obtain ⟨c, hcm, hcid⟩ := hcmd
  have hciso : (s.commands.find? (fun q => q.id = p.commandId)).isSome := by
    rw [List.find?_isSome]
    exact ⟨c, hcm, by simp [hcid]⟩
  obtain ⟨c0, hcfind⟩ := Option.isSome_iff_exists.mp hciso
  have hview : DatabaseStorage.getDrillPlan s p.id = some ⟨p, c0,
      DatabaseStorage.getDrillPlanFiles s p.id, DatabaseStorage.getDrillPlanNotes s p.id⟩ := by
    simp only [DatabaseStorage.getDrillPlan, hfind, hcfind]
  refine ⟨(DatabaseStorage.createDrillPlan s
    ⟨d2, p.flightAssignment, p.commandId, p.eventType⟩).1, ?_, ?_, ?_, ?_, ?_, ?_, ?_, ?_⟩
  · rw [DatabaseStorage.duplicateDrillPlan, hview]
  · rw [rel_create_fst]
  · rw [rel_create_fst]
  · rw [rel_create_fst]
  · rw [rel_create_fst]
  · simp only [DatabaseStorage.duplicateDrillPlan, hview]
    rw [rel_copyNotes_plans, rel_copyFiles_plans, rel_create_plans]
    exact List.mem_append_right _ (List.mem_singleton.mpr rfl)
  · simp only [DatabaseStorage.duplicateDrillPlan, hview]
    rw [rel_copyNotes_files, rel_copyFiles_files, rel_create_files]
  · simp only [DatabaseStorage.duplicateDrillPlan, hview]
    rw [countP_fileRef, rel_copyNotes_files, rel_copyFiles_files, rel_create_files,
      List.countP_append]
    have hzero : (s.files.map fileRef).countP
        (fun pr => pr.1 = some (DatabaseStorage.createDrillPlan s
          ⟨d2, p.flightAssignment, p.commandId, p.eventType⟩).1.id) = 0 := by
      rw [List.countP_eq_zero]
      intro pr hpr
      obtain ⟨f, hf, rfl⟩ := List.mem_map.mp hpr
      rw [rel_create_fst]
      simp only [fileRef, decide_eq_true_eq]
      intro hsome
      have := hfref f hf s.nextId hsome
      omega
    have hall : ∀ (fl : List DrillPlanFile) (k : Nat),
        (fl.map (fun f => ((some k : Option Nat), f.filePath))).countP
          (fun pr => pr.1 = some k) = fl.length := by
      intro fl k
      induction fl with
      | nil => rfl
      | cons f fl ih => simp [List.countP_cons, ih]
    rw [hzero, hall, DatabaseStorage.getDrillPlanFiles,
      ← List.countP_eq_length_filter]
    simp

theorem fb_countP_copied : ∀ (fl : List DrillPlanFile) (k : Nat),
    (fl.map (fun f => ((some k : Option Nat), f.filePath))).countP
      (fun pr => pr.1 = some k) = fl.length := by
  intro fl k
  induction fl with
  | nil => rfl
  | cons f fl ih => simp [List.countP_cons, ih]

theorem fs_duplicate_spec (s : FbStore) (d2 : Nat) (p : DrillPlan)
    (hnd : (s.plans.map (fun q => q.id)).Nodup) (hp : p ∈ s.plans)
    (hfref : ∀ f ∈ s.files, ∀ q, f.drillPlanId = some q → q < s.nextId) :
    ∃ np, (FirestoreStorage.duplicateDrillPlan s p.id d2).1 = some np ∧
      np.commandId = p.commandId ∧ np.flightAssignment = p.flightAssignment ∧
      np.eventType = p.eventType ∧ np.date = d2 ∧
      np ∈ (FirestoreStorage.duplicateDrillPlan s p.id d2).2.plans ∧
      ((FirestoreStorage.duplicateDrillPlan s p.id d2).2.files).map fileRef
        = s.files.map fileRef
          ++ (FirestoreStorage.getDrillPlanFiles s p.id).map (fun f => (some np.id, f.filePath)) ∧
      ((FirestoreStorage.duplicateDrillPlan s p.id d2).2.files).countP
          (fun f => f.drillPlanId = some np.id)
        = s.files.countP (fun f => f.drillPlanId = some p.id) := by
  have hview := fs_getPlan_eq s p hnd hp
  refine ⟨(FirestoreStorage.createDrillPlan s
    ⟨d2, p.flightAssignment, p.commandId, p.eventType⟩).1, ?_, ?_, ?_, ?_, ?_, ?_, ?_, ?_⟩
  · rw [FirestoreStorage.duplicateDrillPlan, hview]
  · rw [fs_create_fst]
  · rw [fs_create_fst]
  · rw [fs_create_fst]
  · rw [fs_create_fst]
  · simp only [FirestoreStorage.duplicateDrillPlan, hview]
    rw [fb_copyFiles_plans, fs_create_plans]
    exact List.mem_append_right _ (List.mem_singleton.mpr rfl)
  · simp only [FirestoreStorage.duplicateDrillPlan, hview]
    rw [fb_copyFiles_files, fs_create_files]
  · simp only [FirestoreStorage.duplicateDrillPlan, hview]
    rw [countP_fileRef, fb_copyFiles_files, fs_create_files, List.countP_append]
    have hzero : (s.files.map fileRef).countP
        (fun pr => pr.1 = some (FirestoreStorage.createDrillPlan s
          ⟨d2, p.flightAssignment, p.commandId, p.eventType⟩).1.id) = 0 := by
      rw [List.countP_eq_zero]
      intro pr hpr
      obtain ⟨f, hf, rfl⟩ := List.mem_map.mp hpr
      rw [fs_create_fst]
      simp only [fileRef, decide_eq_true_eq]
      intro hsome
      have := hfref f hf s.nextId hsome
      omega
    rw [hzero, fb_countP_copied, FirestoreStorage.getDrillPlanFiles,
      ← List.countP_eq_length_filter]
    simp

theorem rt_duplicate_spec (s : FbStore) (d2 : Nat) (p : DrillPlan) (c : DrillCommand)
    (hnd : (s.plans.map (fun q => q.id)).Nodup) (hp : p ∈ s.plans)
    (hcnd : (s.commands.map (fun q => q.id)).Nodup)
    (hc : c ∈ s.commands) (hcid : c.id = p.commandId)
    (hfref : ∀ f ∈ s.files, ∀ q, f.drillPlanId = some q → q < s.nextId) :
    ∃ np, (RealtimeStorage.duplicateDrillPlan s p.id d2).1 = some np ∧
      np.commandId = p.commandId ∧ np.flightAssignment = p.flightAssignment ∧
      np.eventType = p.eventType ∧ np.date = d2 ∧
      np ∈ (RealtimeStorage.duplicateDrillPlan s p.id d2).2.plans ∧
      ((RealtimeStorage.duplicateDrillPlan s p.id d2).2.files).map fileRef
        = s.files.map fileRef
          ++ (RealtimeStorage.getDrillPlanFiles s p.id).map (fun f => (some np.id, f.filePath)) ∧
      ((RealtimeStorage.duplicateDrillPlan s p.id d2).2.files).countP
          (fun f => f.drillPlanId = some np.id)
        = s.files.countP (fun f => f.drillPlanId = some p.id) := by
  have hview := rt_getPlan_eq s p c hnd hp hcnd hc hcid
  refine ⟨(RealtimeStorage.createDrillPlan s
    ⟨d2, p.flightAssignment, p.commandId, p.eventType⟩).1, ?_, ?_, ?_, ?_, ?_, ?_, ?_, ?_⟩
  · rw [RealtimeStorage.duplicateDrillPlan, hview]
  · rw [rt_create_eq_fs, fs_create_fst]
  · rw [rt_create_eq_fs, fs_create_fst]
  · rw [rt_create_eq_fs, fs_create_fst]
  · rw [rt_create_eq_fs, fs_create_fst]
  · simp only [RealtimeStorage.duplicateDrillPlan, hview]
    rw [rt_create_eq_fs, rt_createFile_eq_fs, fb_copyFiles_plans, fs_create_plans]
    exact List.mem_append_right _ (List.mem_singleton.mpr rfl)
  · simp only [RealtimeStorage.duplicateDrillPlan, hview]
    rw [rt_create_eq_fs, rt_createFile_eq_fs, fb_copyFiles_files, fs_create_files]
  · simp only [RealtimeStorage.duplicateDrillPlan, hview]
    rw [rt_create_eq_fs, rt_createFile_eq_fs, countP_fileRef, fb_copyFiles_files,
      fs_create_files, List.countP_append]
    have hzero : (s.files.map fileRef).countP
        (fun pr => pr.1 = some (FirestoreStorage.createDrillPlan s
          ⟨d2, p.flightAssignment, p.commandId, p.eventType⟩).1.id) = 0 := by
      rw [List.countP_eq_zero]
      intro pr hpr
      obtain ⟨f, hf, rfl⟩ := List.mem_map.mp hpr
      rw [fs_create_fst]
      simp only [fileRef, decide_eq_true_eq]
      intro hsome
      have := hfref f hf s.nextId hsome
      omega
    rw [hzero, fb_countP_copied, RealtimeStorage.getDrillPlanFiles,
      ← List.countP_eq_length_filter]
    simp

theorem rel_duplicate_missing (s : DatabaseStorage.Store) (pid d2 : Nat)
    (h : ∀ x ∈ s.plans, x.id ≠ pid) :
    DatabaseStorage.duplicateDrillPlan s pid d2 = (none, s) := by
  have hfind := find?_key_eq_none (fun q => q.id) s.plans pid h
  rw [DatabaseStorage.duplicateDrillPlan, DatabaseStorage.getDrillPlan, hfind]

theorem fs_duplicate_missing (s : FbStore) (pid d2 : Nat)
    (h : ∀ x ∈ s.plans, x.id ≠ pid) :
    FirestoreStorage.duplicateDrillPlan s pid d2 = (none, s) := by
  have hfind := find?_key_eq_none (fun q => q.id) s.plans pid h
  rw [FirestoreStorage.duplicateDrillPlan, FirestoreStorage.getDrillPlan, hfind]

theorem rt_duplicate_missing (s : FbStore) (pid d2 : Nat)
    (h : ∀ x ∈ s.plans, x.id ≠ pid) :
    RealtimeStorage.duplicateDrillPlan s pid d2 = (none, s) := by
  have hfind := find?_key_eq_none (fun q => q.id) s.plans pid h
  rw [RealtimeStorage.duplicateDrillPlan, RealtimeStorage.getDrillPlan, hfind]

/-- C7: on every backend, duplicating an existing plan onto a new date returns
a new plan with the source's commandId, flightAssignment and eventType and the
new date; the copied file rows reference the new plan with storage locators
identical to their sources (so the file count on the new plan equals the
source's); a nonexistent source yields an empty result and no change.  (On the
relational and Realtime adapters the joined load also requires the plan's
command to exist, which the schema's foreign keys guarantee.) -/
theorem claim_C7_duplicate :
    (∀ (s : DatabaseStorage.Store) (d2 : Nat) (p : DrillPlan),
      (s.plans.map (fun q => q.id)).Nodup → p ∈ s.plans →
      (∀ f ∈ s.files, ∀ q, f.drillPlanId = some q → q < s.nextId) →
      (∃ c ∈ s.commands, c.id = p.commandId) →
      ∃ np, (DatabaseStorage.duplicateDrillPlan s p.id d2).1 = some np ∧
        np.commandId = p.commandId ∧ np.flightAssignment = p.flightAssignment ∧
        np.eventType = p.eventType ∧ np.date = d2 ∧
        np ∈ (DatabaseStorage.duplicateDrillPlan s p.id d2).2.plans ∧
        ((DatabaseStorage.duplicateDrillPlan s p.id d2).2.files).map fileRef
          = s.files.map fileRef
            ++ (DatabaseStorage.getDrillPlanFiles s p.id).map (fun f => (some np.id, f.filePath)) ∧
        ((DatabaseStorage.duplicateDrillPlan s p.id d2).2.files).countP
            (fun f => f.drillPlanId = some np.id)
          = s.files.countP (fun f => f.drillPlanId = some p.id)) ∧
    (∀ (s : DatabaseStorage.Store) (pid d2 : Nat), (∀ x ∈ s.plans, x.id ≠ pid) →
      DatabaseStorage.duplicateDrillPlan s pid d2 = (none, s)) ∧
    (∀ (s : FbStore) (d2 : Nat) (p : DrillPlan),
      (s.plans.map (fun q => q.id)).Nodup → p ∈ s.plans →
      (∀ f ∈ s.files, ∀ q, f.drillPlanId = some q → q < s.nextId) →
      ∃ np, (FirestoreStorage.duplicateDrillPlan s p.id d2).1 = some np ∧
        np.commandId = p.commandId ∧ np.flightAssignment = p.flightAssignment ∧
        np.eventType = p.eventType ∧ np.date = d2 ∧
        np ∈ (FirestoreStorage.duplicateDrillPlan s p.id d2).2.plans ∧
        ((FirestoreStorage.duplicateDrillPlan s p.id d2).2.files).map fileRef
          = s.files.map fileRef
            ++ (FirestoreStorage.getDrillPlanFiles s p.id).map (fun f => (some np.id, f.filePath)) ∧
        ((FirestoreStorage.duplicateDrillPlan s p.id d2).2.files).countP
            (fun f => f.drillPlanId = some np.id)
          = s.files.countP (fun f => f.drillPlanId = some p.id)) ∧
    (∀ (s : FbStore) (pid d2 : Nat), (∀ x ∈ s.plans, x.id ≠ pid) →
      FirestoreStorage.duplicateDrillPlan s pid d2 = (none, s)) ∧
    (∀ (s : FbStore) (d2 : Nat) (p : DrillPlan) (c : DrillCommand),
      (s.plans.map (fun q => q.id)).Nodup → p ∈ s.plans →
      (s.commands.map (fun q => q.id)).Nodup → c ∈ s.commands → c.id = p.commandId →
      (∀ f ∈ s.files, ∀ q, f.drillPlanId = some q → q < s.nextId) →
      ∃ np, (RealtimeStorage.duplicateDrillPlan s p.id d2).1 = some np ∧
        np.commandId = p.commandId ∧ np.flightAssignment = p.flightAssignment ∧
        np.eventType = p.eventType ∧ np.date = d2 ∧
        np ∈ (RealtimeStorage.duplicateDrillPlan s p.id d2).2.plans ∧
        ((RealtimeStorage.duplicateDrillPlan s p.id d2).2.files).map fileRef
          = s.files.map fileRef
            ++ (RealtimeStorage.getDrillPlanFiles s p.id).map (fun f => (some np.id, f.filePath)) ∧
        ((RealtimeStorage.duplicateDrillPlan s p.id d2).2.files).countP
            (fun f => f.drillPlanId = some np.id)
          = s.files.countP (fun f => f.drillPlanId = some p.id)) ∧
    (∀ (s : FbStore) (pid d2 : Nat), (∀ x ∈ s.plans, x.id ≠ pid) →
      RealtimeStorage.duplicateDrillPlan s pid d2 = (none, s)) := by
  refine ⟨?_, rel_duplicate_missing, ?_, fs_duplicate_missing, ?_, rt_duplicate_missing⟩
  · intro s d2 p hnd hp hfref hcmd
    exact rel_duplicate_spec s d2 p hnd hp hfref hcmd
  · intro s d2 p hnd hp hfref
    exact fs_duplicate_spec s d2 p hnd hp hfref
  · intro s d2 p c hnd hp hcnd hc hcid hfref
    exact rt_duplicate_spec s d2 p c hnd hp hcnd hc hcid hfref

theorem claim_C7_duplicate_witness :
    (∃ np, (FirestoreStorage.duplicateDrillPlan exCascadeStore 1 999).1 = some np ∧
      np.commandId = 7 ∧ np.flightAssignment = FlightType.alpha ∧
      np.eventType = EventType.drill ∧ np.date = 999 ∧
      ((FirestoreStorage.duplicateDrillPlan exCascadeStore 1 999).2.files).countP
          (fun f => f.drillPlanId = some np.id)
        = exCascadeStore.files.countP (fun f => f.drillPlanId = some 1)) ∧
    DatabaseStorage.duplicateDrillPlan exRelStore 5 999 = (none, exRelStore) := by
  constructor
  · obtain ⟨np, h1, h2, h3, h4, h5, -, -, h8⟩ := claim_C7_duplicate.2.2.1 exCascadeStore 999
      ⟨1, 10, FlightType.alpha, 7, EventType.drill, 0, 0⟩ (by decide) (by decide) (by decide)
    exact ⟨np, h1, h2, h3, h4, h5, h8⟩
  · exact claim_C7_duplicate.2.1 exRelStore 5 999 (by decide)

/-! ### Claim C8 — only the relational adapter copies notes -/

theorem countP_noteRef (l : List DrillPlanNote) (k : Nat) :
    l.countP (fun n => n.drillPlanId = k)
      = (l.map noteRef).countP (fun pr => pr.1 = k) := by
  rw [List.countP_map]
  rfl

theorem rel_duplicate_notes_spec (s : DatabaseStorage.Store) (d2 : Nat) (p : DrillPlan)
    (hnd : (s.plans.map (fun q => q.id)).Nodup) (hp : p ∈ s.plans)
    (hnref : ∀ n ∈ s.notes, n.drillPlanId < s.nextId)
    (hcmd : ∃ c ∈ s.commands, c.id = p.commandId) :
    ∃ np, (DatabaseStorage.duplicateDrillPlan s p.id d2).1 = some np ∧
      ((DatabaseStorage.duplicateDrillPlan s p.id d2).2.notes).map noteRef
        = s.notes.map noteRef
          ++ (DatabaseStorage.getDrillPlanNotes s p.id).map
              (fun n => (np.id, n.content, n.authorName)) ∧
      ((DatabaseStorage.duplicateDrillPlan s p.id d2).2.notes).countP
          (fun n => n.drillPlanId = np.id)
        = s.notes.countP (fun n => n.drillPlanId = p.id) := by
  have hfind : s.plans.find? (fun q => q.id = p.id) = some p :=
    find?_key_eq_of_nodup (fun q => q.id) s.plans p p.id hnd hp rfl
  obtain ⟨c, hcm, hcid⟩ := hcmd
  have hciso : (s.commands.find? (fun q => q.id = p.commandId)).isSome := by
    rw [List.find?_isSome]
    exact ⟨c, hcm, by simp [hcid]⟩
  obtain ⟨c0, hcfind⟩ := Option.isSome_iff_exists.mp hciso
  have hview : DatabaseStorage.getDrillPlan s p.id = some ⟨p, c0,
      DatabaseStorage.getDrillPlanFiles s p.id, DatabaseStorage.getDrillPlanNotes s p.id⟩ := by
    simp only [DatabaseStorage.getDrillPlan, hfind, hcfind]
  refine ⟨(DatabaseStorage.createDrillPlan s
    ⟨d2, p.flightAssignment, p.commandId, p.eventType⟩).1, ?_, ?_, ?_⟩
  · rw [DatabaseStorage.duplicateDrillPlan, hview]
  · simp only [DatabaseStorage.duplicateDrillPlan, hview]
    rw [rel_copyNotes_notes, rel_copyFiles_notes, rel_create_notes]
  · simp only [DatabaseStorage.duplicateDrillPlan, hview]
    rw [countP_noteRef, rel_copyNotes_notes, rel_copyFiles_notes, rel_create_notes,
      List.countP_append]
    have hzero : (s.notes.map noteRef).countP
        (fun pr => pr.1 = (DatabaseStorage.createDrillPlan s
          ⟨d2, p.flightAssignment, p.commandId, p.eventType⟩).1.id) = 0 := by
      rw [List.countP_eq_zero]
      intro pr hpr
      obtain ⟨n, hn, rfl⟩ := List.mem_map.mp hpr
      rw [rel_create_fst]
      simp only [noteRef, decide_eq_true_eq]
      intro hsome
      have := hnref n hn
      omega
    have hall : ∀ (ns : List DrillPlanNote) (k : Nat),
        (ns.map (fun n => (k, n.content, n.authorName))).countP
          (fun pr => pr.1 = k) = ns.length := by
      intro ns k
      induction ns with
      | nil => rfl
      | cons n ns ih => simp [List.countP_cons, ih]
    rw [hzero, hall, DatabaseStorage.getDrillPlanNotes, sortByAsc, length_sortStable,
      ← List.countP_eq_length_filter]
    simp

theorem fs_duplicate_notes (s : FbStore) (pid d2 : Nat) :
    (FirestoreStorage.duplicateDrillPlan s pid d2).2.notes = s.notes := by
  rw [FirestoreStorage.duplicateDrillPlan]
  cases hfind : FirestoreStorage.getDrillPlan s pid with
  | none => rfl
  | some v =>
    simp only []
    rw [fb_copyFiles_notes, fs_create_notes]

theorem rt_duplicate_notes (s : FbStore) (pid d2 : Nat) :
    (RealtimeStorage.duplicateDrillPlan s pid d2).2.notes = s.notes := by
  rw [RealtimeStorage.duplicateDrillPlan]
  cases hfind : RealtimeStorage.getDrillPlan s pid with
  | none => rfl
  | some v =>
    simp only []
    rw [rt_create_eq_fs, rt_createFile_eq_fs, fb_copyFiles_notes, fs_create_notes]

/-- C8: the three duplicatePlan implementations disagree on note copying — the
relational adapter creates one copy of each of the source plan's notes,
attached to the new plan, while the Firestore and Realtime Database adapters
leave the notes collection entirely unchanged. -/
theorem claim_C8_note_copy_divergence :
    (∀ (s : DatabaseStorage.Store) (d2 : Nat) (p : DrillPlan),
      (s.plans.map (fun q => q.id)).Nodup → p ∈ s.plans →
      (∀ n ∈ s.notes, n.drillPlanId < s.nextId) →
      (∃ c ∈ s.commands, c.id = p.commandId) →
      ∃ np, (DatabaseStorage.duplicateDrillPlan s p.id d2).1 = some np ∧
        ((DatabaseStorage.duplicateDrillPlan s p.id d2).2.notes).map noteRef
          = s.notes.map noteRef
            ++ (DatabaseStorage.getDrillPlanNotes s p.id).map
                (fun n => (np.id, n.content, n.authorName)) ∧
        ((DatabaseStorage.duplicateDrillPlan s p.id d2).2.notes).countP
            (fun n => n.drillPlanId = np.id)
          = s.notes.countP (fun n => n.drillPlanId = p.id)) ∧
    (∀ (s : FbStore) (pid d2 : Nat),
      (FirestoreStorage.duplicateDrillPlan s pid d2).2.notes = s.notes) ∧
    (∀ (s : FbStore) (pid d2 : Nat),
      (RealtimeStorage.duplicateDrillPlan s pid d2).2.notes = s.notes) :=
  ⟨fun s d2 p hnd hp hnref hcmd => rel_duplicate_notes_spec s d2 p hnd hp hnref hcmd,
    fs_duplicate_notes, rt_duplicate_notes⟩

theorem claim_C8_note_copy_divergence_witness :
    (∃ np, (DatabaseStorage.duplicateDrillPlan exRelPlanStore 1 999).1 = some np ∧
      ((DatabaseStorage.duplicateDrillPlan exRelPlanStore 1 999).2.notes).countP
          (fun n => n.drillPlanId = np.id)
        = exRelPlanStore.notes.countP (fun n => n.drillPlanId = 1)) ∧
    (FirestoreStorage.duplicateDrillPlan exCascadeStore 1 999).2.notes
      = exCascadeStore.notes := by
  constructor
  · obtain ⟨np, h1, -, h3⟩ := claim_C8_note_copy_divergence.1 exRelPlanStore 999
      ⟨1, 10, FlightType.alpha, 7, EventType.drill, 0, 0⟩ (by decide) (by decide) (by decide)
      ⟨⟨7, "cmd", EventType.drill, none, 0⟩, by decide, by decide⟩
    exact ⟨np, h1, h3⟩
  · exact claim_C8_note_copy_divergence.2.1 exCascadeStore 1 999

/-! ### Claims C2 and C3 — pruning -/

/-- The ids one group contributes to the Firebase prune deletions: all but the
head of the descending-by-date ordering, when the group has at least two
plans. -/
def groupDeletedIds (g : Nat × List DrillPlan) : List Nat :=
  if 1 < g.2.length then ((sortByDesc (fun p => p.date) g.2).tail).map (fun p => p.id)
  else []

/-- All plan ids deleted by one run of the Firebase prune. -/
def fbPruneDeletedIds (s : FbStore) : List Nat :=
  ((groupByCommand (FirestoreStorage.getAllDrillPlans s)).map groupDeletedIds).flatten

theorem fb_deleteFold_mem (ps : List DrillPlan) (t : FbStore) (q : DrillPlan) :
    q ∈ (ps.foldl (fun st2 p => (FirestoreStorage.deleteDrillPlan st2 p.id).2) t).plans
      ↔ q ∈ t.plans ∧ ¬ q.id ∈ ps.map (fun p => p.id) := by
  induction ps generalizing t with
  | nil => simp
  | cons p ps ih =>
    simp only [List.foldl_cons]
    rw [ih]
    simp only [FirestoreStorage.deleteDrillPlan, List.mem_filter, List.map_cons,
      List.mem_cons, decide_not, Bool.not_eq_eq_eq_not, Bool.not_true, decide_eq_false_iff_not]
    tauto

theorem fb_groupFold_mem (gs : List (Nat × List DrillPlan)) (t : FbStore) (q : DrillPlan) :
    q ∈ (gs.foldl (fun st g =>
        if 1 < g.2.length then
          ((sortByDesc (fun p => p.date) g.2).tail).foldl
            (fun st2 p => (FirestoreStorage.deleteDrillPlan st2 p.id).2) st
        else st) t).plans
      ↔ q ∈ t.plans ∧ ¬ q.id ∈ (gs.map groupDeletedIds).flatten := by
  induction gs generalizing t with
  | nil => simp
  | cons g gs ih =>
    simp only [List.foldl_cons]
    by_cases hlen : 1 < g.2.length
    · rw [if_pos hlen, ih, fb_deleteFold_mem]
      simp only [List.map_cons, List.flatten_cons, List.mem_append, groupDeletedIds, if_pos hlen]
      tauto
    · rw [if_neg hlen, ih]
      simp only [List.map_cons, List.flatten_cons, List.mem_append, groupDeletedIds, if_neg hlen]
      tauto

theorem fs_prune_mem (s : FbStore) (q : DrillPlan) :
    q ∈ (FirestoreStorage.pruneOldData s).plans
      ↔ q ∈ s.plans ∧ ¬ q.id ∈ fbPruneDeletedIds s := by
  rw [FirestoreStorage.pruneOldData, fbPruneDeletedIds]
  exact fb_groupFold_mem _ s q

theorem mem_insertKey (ks : List Nat) (k k' : Nat) :
    k ∈ insertKey ks k' ↔ k ∈ ks ∨ k = k' := by
  by_cases h : k' ∈ ks
  · rw [insertKey, if_pos h]
    constructor
    · exact Or.inl
    · intro hh
      rcases hh with hh | rfl
      · exact hh
      · exact h
  · rw [insertKey, if_neg h]
    simp

theorem mem_firstKeys_aux (l : List DrillPlan) (acc : List Nat) (k : Nat) :
    k ∈ l.foldl (fun ks p => insertKey ks p.commandId) acc
      ↔ k ∈ acc ∨ ∃ p ∈ l, p.commandId = k := by
  induction l generalizing acc with
  | nil => simp
  | cons p l ih =>
    simp only [List.foldl_cons]
    rw [ih, mem_insertKey]
    constructor
    · rintro (hk | ⟨q, hq, hqk⟩)
      · rcases hk with hk | hk
        · exact Or.inl hk
        · exact Or.inr ⟨p, List.mem_cons_self p l, hk.symm⟩
      · exact Or.inr ⟨q, List.mem_cons_of_mem p hq, hqk⟩
    · rintro (hk | ⟨q, hq, hqk⟩)
      · exact Or.inl (Or.inl hk)
      · rcases List.mem_cons.mp hq with rfl | hq
        · exact Or.inl (Or.inr hqk.symm)
        · exact Or.inr ⟨q, hq, hqk⟩

theorem mem_firstKeys (l : List DrillPlan) (k : Nat) :
    k ∈ firstKeys l ↔ ∃ p ∈ l, p.commandId = k := by
  rw [firstKeys, mem_firstKeys_aux]
  simp

theorem mem_fbPruneDeletedIds (s : FbStore) (i : Nat) :
    i ∈ fbPruneDeletedIds s ↔ ∃ c ∈ firstKeys (FirestoreStorage.getAllDrillPlans s),
      i ∈ groupDeletedIds
        (c, (FirestoreStorage.getAllDrillPlans s).filter (fun p => p.commandId = c)) := by
  simp [fbPruneDeletedIds, groupByCommand, List.mem_flatten]

theorem mem_getAllDrillPlans (s : FbStore) (q : DrillPlan) :
    q ∈ FirestoreStorage.getAllDrillPlans s ↔ q ∈ s.plans := by
  rw [FirestoreStorage.getAllDrillPlans, sortByAsc, mem_sortStable]

theorem mem_groupDeletedIds (g : Nat × List DrillPlan) (i : Nat) :
    i ∈ groupDeletedIds g ↔ 1 < g.2.length ∧
      i ∈ ((sortByDesc (fun p => p.date) g.2).tail).map (fun p => p.id) := by
  rw [groupDeletedIds]
  by_cases h : 1 < g.2.length
  · rw [if_pos h]
    simp [h]
  · rw [if_neg h]
    simp [h]

/-- On a store with distinct plan ids, the descending ordering of the group of
a strictly-maximal plan `p` starts with `p`, and its tail consists of the
other plans of the command, never repeating `p.id`. -/
theorem fs_group_sorted (s : FbStore) (p : DrillPlan)
    (hnd : (s.plans.map (fun q => q.id)).Nodup) (hp : p ∈ s.plans)
    (hmax : ∀ q ∈ s.plans, q.commandId = p.commandId → q ≠ p → q.date < p.date) :
    ∃ t, sortByDesc (fun q : DrillPlan => q.date)
        ((FirestoreStorage.getAllDrillPlans s).filter (fun q => q.commandId = p.commandId))
        = p :: t ∧
      ¬ p.id ∈ t.map (fun q => q.id) ∧
      ∀ q ∈ t, q ∈ s.plans ∧ q.commandId = p.commandId ∧ q ≠ p := by
  have hmem_members : ∀ q, q ∈ (FirestoreStorage.getAllDrillPlans s).filter
      (fun r => r.commandId = p.commandId) ↔ q ∈ s.plans ∧ q.commandId = p.commandId := by
    intro q
    rw [List.mem_filter, mem_getAllDrillPlans]
    simp
  have hpm : p ∈ (FirestoreStorage.getAllDrillPlans s).filter
      (fun r => r.commandId = p.commandId) := (hmem_members p).mpr ⟨hp, rfl⟩
  obtain ⟨t, ht⟩ := sortByDesc_head_unique (fun q : DrillPlan => q.date) _ p hpm
    (fun q hq hqp => hmax q ((hmem_members q).mp hq).1 ((hmem_members q).mp hq).2 hqp)
  have hnd_members : (((FirestoreStorage.getAllDrillPlans s).filter
      (fun r => r.commandId = p.commandId)).map (fun q => q.id)).Nodup := by
    have h1 : ((FirestoreStorage.getAllDrillPlans s).map (fun q => q.id)).Nodup :=
      (((sortByAsc_perm (fun q : DrillPlan => q.date) s.plans).map (fun q => q.id)).nodup_iff).mpr hnd
    have h2 : List.Sublist ((FirestoreStorage.getAllDrillPlans s).filter
        (fun r => r.commandId = p.commandId)) (FirestoreStorage.getAllDrillPlans s) :=
      List.filter_sublist _
    exact (h2.map (fun q => q.id)).nodup h1
  have hnd_sorted : ((sortByDesc (fun q : DrillPlan => q.date)
      ((FirestoreStorage.getAllDrillPlans s).filter
        (fun r => r.commandId = p.commandId))).map (fun q => q.id)).Nodup :=
    (((sortByDesc_perm (fun q : DrillPlan => q.date) _).map (fun q => q.id)).nodup_iff).mpr hnd_members
  rw [ht, List.map_cons] at hnd_sorted
  rcases List.nodup_cons.mp hnd_sorted with ⟨hpid, -⟩
  refine ⟨t, ht, hpid, ?_⟩
  intro q hq
  have hq_sorted : q ∈ sortByDesc (fun r : DrillPlan => r.date)
      ((FirestoreStorage.getAllDrillPlans s).filter (fun r => r.commandId = p.commandId)) := by
    rw [ht]
    exact List.mem_cons_of_mem p hq
  have hq_members := (hmem_members q).mp
    ((sortByDesc_perm (fun r : DrillPlan => r.date) _).mem_iff.mp hq_sorted)
  refine ⟨hq_members.1, hq_members.2, ?_⟩
  intro hqp
  apply hpid
  rw [← hqp]
  exact List.mem_map_of_mem (fun r => r.id) hq

theorem fs_prune_survivors (s : FbStore) (p : DrillPlan)
    (hnd : (s.plans.map (fun q => q.id)).Nodup) (hp : p ∈ s.plans)
    (hmax : ∀ q ∈ s.plans, q.commandId = p.commandId → q ≠ p → q.date < p.date) :
    p ∈ (FirestoreStorage.pruneOldData s).plans ∧
    ∀ q ∈ (FirestoreStorage.pruneOldData s).plans, q.commandId = p.commandId → q = p := by
  have hinj := List.inj_on_of_nodup_map hnd
  obtain ⟨t, ht, hpid, htmem⟩ := fs_group_sorted s p hnd hp hmax
  constructor
  · rw [fs_prune_mem]
    refine ⟨hp, ?_⟩
    intro hdel
    obtain ⟨c', hc', hmem⟩ := (mem_fbPruneDeletedIds s p.id).mp hdel
    rw [mem_groupDeletedIds] at hmem
    dsimp only at hmem
    obtain ⟨hlen, hmem⟩ := hmem
    obtain ⟨x, hx, hxid⟩ := List.mem_map.mp hmem
    have hx_sorted : x ∈ sortByDesc (fun q : DrillPlan => q.date)
        ((FirestoreStorage.getAllDrillPlans s).filter (fun q => q.commandId = c')) :=
      List.mem_of_mem_tail hx
    have hx_members := (sortByDesc_perm (fun q : DrillPlan => q.date) _).mem_iff.mp hx_sorted
    have hx_plans : x ∈ s.plans :=
      (mem_getAllDrillPlans s x).mp (List.mem_filter.mp hx_members).1
    have hxc : x.commandId = c' := by simpa using (List.mem_filter.mp hx_members).2
    have hxp : x = p := hinj hx_plans hp hxid
    have hcc : p.commandId = c' := by rw [← hxp]; exact hxc
    rw [← hcc, ht, List.tail_cons] at hx
    apply hpid
    rw [← hxid]
    exact List.mem_map_of_mem (fun q => q.id) hx
  · intro q hq hqc
    by_contra hqp
    rw [fs_prune_mem] at hq
    obtain ⟨hq_plans, hq_notdel⟩ := hq
    apply hq_notdel
    rw [mem_fbPruneDeletedIds]
    refine ⟨p.commandId, ?_, ?_⟩
    · rw [mem_firstKeys]
      exact ⟨p, (mem_getAllDrillPlans s p).mpr hp, rfl⟩
    · rw [mem_groupDeletedIds]
      dsimp only
      have hq_members : q ∈ (FirestoreStorage.getAllDrillPlans s).filter
          (fun r => r.commandId = p.commandId) := by
        rw [List.mem_filter, mem_getAllDrillPlans]
        simp [hq_plans, hqc]
      have hq_sorted : q ∈ sortByDesc (fun r : DrillPlan => r.date)
          ((FirestoreStorage.getAllDrillPlans s).filter (fun r => r.commandId = p.commandId)) :=
        (sortByDesc_perm (fun r : DrillPlan => r.date) _).mem_iff.mpr hq_members
      rw [ht] at hq_sorted
      have hqt : q ∈ t := by
        rcases List.mem_cons.mp hq_sorted with rfl | hqt
        · exact absurd rfl hqp
        · exact hqt
      have hlen : 1 < ((FirestoreStorage.getAllDrillPlans s).filter
          (fun r => r.commandId = p.commandId)).length := by
        have hlen_eq : ((FirestoreStorage.getAllDrillPlans s).filter
            (fun r => r.commandId = p.commandId)).length = (p :: t).length := by
          rw [← ht]
          exact ((sortByDesc_perm (fun r : DrillPlan => r.date) _).length_eq).symm
        rw [hlen_eq, List.length_cons]
        have : 0 < t.length := List.length_pos_of_mem hqt
        omega
      refine ⟨hlen, ?_⟩
      rw [ht, List.tail_cons]
      exact List.mem_map_of_mem (fun r => r.id) hqt

theorem rel_delete_plans_mem (t : DatabaseStorage.Store) (i : Nat) (q : DrillPlan) :
    q ∈ (DatabaseStorage.deleteDrillPlan t i).2.plans ↔ q ∈ t.plans ∧ ¬ q.id = i := by
  by_cases h : t.plans.any (fun p => p.id = i) = true
  · rw [DatabaseStorage.deleteDrillPlan, if_pos h]
    simp
  · rw [DatabaseStorage.deleteDrillPlan, if_neg h]
    have hall := List.any_eq_false.mp (Bool.eq_false_iff.mpr h)
    constructor
    · intro hq
      exact ⟨hq, by simpa using hall q hq⟩
    · intro hq
      exact hq.1

theorem rel_deleteIds_mem : ∀ (ids : List Nat) (t : DatabaseStorage.Store) (q : DrillPlan),
    q ∈ (DatabaseStorage.deleteIds t ids).plans ↔ q ∈ t.plans ∧ ¬ q.id ∈ ids
  | [], t, q => by simp [DatabaseStorage.deleteIds]
  | i :: ids, t, q => by
    have hstep : DatabaseStorage.deleteIds t (i :: ids)
        = DatabaseStorage.deleteIds (DatabaseStorage.deleteDrillPlan t i).2 ids := rfl
    rw [hstep, rel_deleteIds_mem ids _ q, rel_delete_plans_mem]
    simp only [List.mem_cons]
    tauto

theorem rel_pruneLoop_mem_preserved (sizeOf : DatabaseStorage.Store → Nat) :
    ∀ (ids : List Nat) (t : DatabaseStorage.Store) (q : DrillPlan),
    q ∈ t.plans → ¬ q.id ∈ ids →
    q ∈ (DatabaseStorage.pruneLoop sizeOf t ids).plans
  | [], _, _, hq, _ => hq
  | i :: ids, t, q, hq, hid => by
    simp only [DatabaseStorage.pruneLoop]
    have hq2 : q ∈ (DatabaseStorage.deleteDrillPlan t i).2.plans :=
      (rel_delete_plans_mem t i q).mpr
        ⟨hq, fun h => hid (by rw [h]; exact List.mem_cons_self i ids)⟩
    by_cases hsz : DatabaseStorage.sizeLeTarget (sizeOf (DatabaseStorage.deleteDrillPlan t i).2) = true
    · rw [if_pos hsz]
      exact hq2
    · rw [if_neg hsz]
      exact rel_pruneLoop_mem_preserved sizeOf ids _ q hq2
        (fun h => hid (List.mem_cons_of_mem i h))

theorem rel_pruneLoop_all (sizeOf : DatabaseStorage.Store → Nat)
    (hnever : ∀ t, DatabaseStorage.sizeLeTarget (sizeOf t) = false) :
    ∀ (ids : List Nat) (t : DatabaseStorage.Store),
    DatabaseStorage.pruneLoop sizeOf t ids = DatabaseStorage.deleteIds t ids
  | [], t => rfl
  | i :: ids, t => by
    simp only [DatabaseStorage.pruneLoop]
    rw [hnever]
    simp only [Bool.false_eq_true, if_false]
    exact rel_pruneLoop_all sizeOf hnever ids _

theorem rel_isRankOne_spec (s : DatabaseStorage.Store) (p : DrillPlan)
    (_hnd : (s.plans.map (fun q => q.id)).Nodup) (hp : p ∈ s.plans)
    (hmax : ∀ q ∈ s.plans, q.commandId = p.commandId → q ≠ p → q.date < p.date) :
    DatabaseStorage.isRankOne s.plans p = true ∧
    ∀ q ∈ s.plans, q.commandId = p.commandId → q ≠ p →
      DatabaseStorage.isRankOne s.plans q = false := by
  have hmem_members : ∀ r, r ∈ s.plans.filter (fun x => x.commandId = p.commandId)
      ↔ r ∈ s.plans ∧ r.commandId = p.commandId := by
    intro r
    rw [List.mem_filter]
    simp
  have hpm := (hmem_members p).mpr ⟨hp, rfl⟩
  obtain ⟨t, ht⟩ := sortByDesc_head_unique (fun q : DrillPlan => q.date) _ p hpm
    (fun q hq hqp => hmax q ((hmem_members q).mp hq).1 ((hmem_members q).mp hq).2 hqp)
  constructor
  · rw [DatabaseStorage.isRankOne, ht]
    simp
  · intro q hq hqc hqp
    rw [DatabaseStorage.isRankOne, hqc, ht]
    simp only [List.head?_cons, decide_eq_false_iff_not]
    intro h
    injection h with h
    exact hqp h.symm

theorem rel_eligible_ids (s : DatabaseStorage.Store) (p : DrillPlan)
    (hnd : (s.plans.map (fun q => q.id)).Nodup) (hp : p ∈ s.plans)
    (hmax : ∀ q ∈ s.plans, q.commandId = p.commandId → q ≠ p → q.date < p.date) :
    ¬ p.id ∈ (DatabaseStorage.eligiblePlans s).map (fun q => q.id) ∧
    ∀ q ∈ s.plans, q.commandId = p.commandId → q ≠ p →
      q.id ∈ (DatabaseStorage.eligiblePlans s).map (fun q => q.id) := by
  obtain ⟨hrank1, hrank0⟩ := rel_isRankOne_spec s p hnd hp hmax
  have hinj := List.inj_on_of_nodup_map hnd
  have hmem_eligible : ∀ r, r ∈ DatabaseStorage.eligiblePlans s
      ↔ r ∈ s.plans ∧ DatabaseStorage.isRankOne s.plans r = false := by
    intro r
    rw [DatabaseStorage.eligiblePlans, sortByAsc, mem_sortStable, List.mem_filter]
    simp
  constructor
  · intro hmem
    obtain ⟨x, hx, hxid⟩ := List.mem_map.mp hmem
    obtain ⟨hx_plans, hx_rank⟩ := (hmem_eligible x).mp hx
    have hxp : x = p := hinj hx_plans hp hxid
    rw [hxp] at hx_rank
    rw [hrank1] at hx_rank
    cases hx_rank
  · intro q hq hqc hqp
    have hq_elig : q ∈ DatabaseStorage.eligiblePlans s :=
      (hmem_eligible q).mpr ⟨hq, hrank0 q hq hqc hqp⟩
    exact List.mem_map_of_mem (fun r => r.id) hq_elig

theorem rel_prune_survivors (sizeOf : DatabaseStorage.Store → Nat)
    (s : DatabaseStorage.Store) (p : DrillPlan)
    (hnd : (s.plans.map (fun q => q.id)).Nodup) (hp : p ∈ s.plans)
    (hmax : ∀ q ∈ s.plans, q.commandId = p.commandId → q ≠ p → q.date < p.date) :
    p ∈ (DatabaseStorage.pruneOldData sizeOf s).plans ∧
    ((∀ t, DatabaseStorage.sizeLeTarget (sizeOf t) = false) →
      ∀ q ∈ (DatabaseStorage.pruneOldData sizeOf s).plans, q.commandId = p.commandId → q = p) := by
  obtain ⟨hpid_not, hqid_in⟩ := rel_eligible_ids s p hnd hp hmax
  constructor
  · rw [DatabaseStorage.pruneOldData]
    by_cases hsz : DatabaseStorage.sizeLeTarget (sizeOf s) = true
    · rw [if_pos hsz]
      exact hp
    · rw [if_neg hsz]
      exact rel_pruneLoop_mem_preserved sizeOf _ s p hp hpid_not
  · intro hnever q hq hqc
    rw [DatabaseStorage.pruneOldData, if_neg (by rw [hnever]; simp)] at hq
    rw [rel_pruneLoop_all sizeOf hnever, rel_deleteIds_mem] at hq
    by_contra hqp
    exact hq.2 (hqid_in q hq.1 hqc hqp)

/-- The Realtime Database prune computes the same function as the Firestore
one. -/
theorem rt_prune_eq_fs : RealtimeStorage.pruneOldData = FirestoreStorage.pruneOldData := rfl

/-- C3: prune never deletes a command's most-recent plan, and once it runs to
completion on a command (always, on the key-value backends; when the size
estimate never reaches the target, on the relational one) that plan is the
command's only survivor.  `p` is taken to be the strictly most recent plan of
its command so that "the plan with the maximum date" is well defined. -/
theorem claim_C3_prune_preserves_latest :
    (∀ (sizeOf : DatabaseStorage.Store → Nat) (s : DatabaseStorage.Store) (p : DrillPlan),
      (s.plans.map (fun q => q.id)).Nodup → p ∈ s.plans →
      (∀ q ∈ s.plans, q.commandId = p.commandId → q ≠ p → q.date < p.date) →
      p ∈ (DatabaseStorage.pruneOldData sizeOf s).plans ∧
      ((∀ t, DatabaseStorage.sizeLeTarget (sizeOf t) = false) →
        ∀ q ∈ (DatabaseStorage.pruneOldData sizeOf s).plans,
          q.commandId = p.commandId → q = p)) ∧
    (∀ (s : FbStore) (p : DrillPlan),
      (s.plans.map (fun q => q.id)).Nodup → p ∈ s.plans →
      (∀ q ∈ s.plans, q.commandId = p.commandId → q ≠ p → q.date < p.date) →
      p ∈ (FirestoreStorage.pruneOldData s).plans ∧
      ∀ q ∈ (FirestoreStorage.pruneOldData s).plans, q.commandId = p.commandId → q = p) ∧
    (∀ (s : FbStore) (p : DrillPlan),
      (s.plans.map (fun q => q.id)).Nodup → p ∈ s.plans →
      (∀ q ∈ s.plans, q.commandId = p.commandId → q ≠ p → q.date < p.date) →
      p ∈ (RealtimeStorage.pruneOldData s).plans ∧
      ∀ q ∈ (RealtimeStorage.pruneOldData s).plans, q.commandId = p.commandId → q = p) := by
  refine ⟨rel_prune_survivors, fs_prune_survivors, ?_⟩
  intro s p hnd hp hmax
  rw [rt_prune_eq_fs]
  exact fs_prune_survivors s p hnd hp hmax

/-- A two-plan relational store for command 7 (dates 10 and 20). -/
def exRelPruneStore : DatabaseStorage.Store :=
  ⟨[⟨7, "cmd", EventType.drill, none, 0⟩],
    [⟨1, 10, FlightType.alpha, 7, EventType.drill, 0, 0⟩,
      ⟨2, 20, FlightType.tango, 7, EventType.drill, 0, 0⟩], [], [], [], 100, 5⟩

theorem claim_C3_prune_preserves_latest_witness :
    ((⟨2, 20, FlightType.tango, 7, EventType.drill, 0, 0⟩ : DrillPlan)
        ∈ (DatabaseStorage.pruneOldData (fun _ => 966367642) exRelPruneStore).plans ∧
      ∀ q ∈ (DatabaseStorage.pruneOldData (fun _ => 966367642) exRelPruneStore).plans,
        q.commandId = 7 → q = ⟨2, 20, FlightType.tango, 7, EventType.drill, 0, 0⟩) ∧
    ((⟨2, 20, FlightType.tango, 7, EventType.drill, 0, 0⟩ : DrillPlan)
        ∈ (FirestoreStorage.pruneOldData exNotesStore).plans ∧
      ∀ q ∈ (FirestoreStorage.pruneOldData exNotesStore).plans,
        q.commandId = 7 → q = ⟨2, 20, FlightType.tango, 7, EventType.drill, 0, 0⟩) := by
  constructor
  · obtain ⟨h1, h2⟩ := claim_C3_prune_preserves_latest.1 (fun _ => 966367642) exRelPruneStore
      ⟨2, 20, FlightType.tango, 7, EventType.drill, 0, 0⟩ (by decide) (by decide) (by decide)
    exact ⟨h1, h2 (fun t => by decide)⟩
  · obtain ⟨h1, h2⟩ := claim_C3_prune_preserves_latest.2.1 exNotesStore
      ⟨2, 20, FlightType.tango, 7, EventType.drill, 0, 0⟩ (by decide) (by decide) (by decide)
    exact ⟨h1, h2⟩

/-- C2 counterexample: the Firestore store holds five documents (size estimate
5120 bytes, far below the 966367641.6-byte target), yet `pruneOldData` still
deletes a plan. -/
theorem claim_C2_counterexample :
    DatabaseStorage.sizeLeTarget (FirestoreStorage.getDatabaseSize exNotesStore) = true ∧
    (FirestoreStorage.pruneOldData exNotesStore).plans.length < exNotesStore.plans.length := by
  decide

theorem rel_pruneLoop_spec (sizeOf : DatabaseStorage.Store → Nat) :
    ∀ (ids : List Nat) (t : DatabaseStorage.Store),
    ∃ k, k ≤ ids.length ∧
      DatabaseStorage.pruneLoop sizeOf t ids = DatabaseStorage.deleteIds t (ids.take k) ∧
      (∀ j, 0 < j → j < k →
        DatabaseStorage.sizeLeTarget (sizeOf (DatabaseStorage.deleteIds t (ids.take j)))
          = false) ∧
      (k < ids.length →
        DatabaseStorage.sizeLeTarget (sizeOf (DatabaseStorage.deleteIds t (ids.take k)))
          = true) ∧
      (ids ≠ [] → 0 < k)
  | [], t => ⟨0, Nat.le_refl 0, rfl, fun _ _ hjk => absurd hjk (by omega),
      fun h => absurd h (by simp), fun h => absurd rfl h⟩
  | i :: ids, t => by
    by_cases hsz : DatabaseStorage.sizeLeTarget
        (sizeOf (DatabaseStorage.deleteDrillPlan t i).2) = true
    · refine ⟨1, by simp, ?_, ?_, ?_, fun _ => Nat.one_pos⟩
      · simp only [DatabaseStorage.pruneLoop, if_pos hsz]
        rfl
      · intro j hj0 hj1
        omega
      · intro _
        exact hsz
    · obtain ⟨k, hk_le, hk_eq, hk_mid, hk_end, -⟩ :=
        rel_pruneLoop_spec sizeOf ids (DatabaseStorage.deleteDrillPlan t i).2
      refine ⟨k + 1, by simpa using Nat.succ_le_succ hk_le, ?_, ?_, ?_,
        fun _ => Nat.succ_pos k⟩
      · simp only [DatabaseStorage.pruneLoop, if_neg hsz]
        rw [hk_eq]
        rfl
      · intro j hj0 hjk
        match j, hj0 with
        | 1, _ => exact Bool.eq_false_iff.mpr hsz
        | (j'' + 2), _ => exact hk_mid (j'' + 1) (Nat.succ_pos _) (by omega)
      · intro hklt
        exact hk_end (by simpa using Nat.lt_of_succ_lt_succ hklt)

/-- C2 amended: only the relational `pruneOldData` implements the size-gated
algorithm — it returns unchanged when the measured size is at most the target,
and otherwise deletes eligible plans one at a time in date order, re-measuring
after each deletion and stopping at the first deletion that brings the size to
the target.  The Firestore and Realtime Database variants never consult the
size estimate: they delete every plan that is not its command's most recent
even when the estimate is already at or below the target. -/
theorem claim_C2_amended :
    (∀ (sizeOf : DatabaseStorage.Store → Nat) (s : DatabaseStorage.Store),
      DatabaseStorage.sizeLeTarget (sizeOf s) = true →
      DatabaseStorage.pruneOldData sizeOf s = s) ∧
    (∀ (sizeOf : DatabaseStorage.Store → Nat) (s : DatabaseStorage.Store),
      DatabaseStorage.sizeLeTarget (sizeOf s) = false →
      ∃ k, k ≤ ((DatabaseStorage.eligiblePlans s).map (fun p => p.id)).length ∧
        DatabaseStorage.pruneOldData sizeOf s
          = DatabaseStorage.deleteIds s
              (((DatabaseStorage.eligiblePlans s).map (fun p => p.id)).take k) ∧
        (∀ j, 0 < j → j < k →
          DatabaseStorage.sizeLeTarget (sizeOf (DatabaseStorage.deleteIds s
            (((DatabaseStorage.eligiblePlans s).map (fun p => p.id)).take j))) = false) ∧
        (k < ((DatabaseStorage.eligiblePlans s).map (fun p => p.id)).length →
          DatabaseStorage.sizeLeTarget (sizeOf (DatabaseStorage.deleteIds s
            (((DatabaseStorage.eligiblePlans s).map (fun p => p.id)).take k))) = true) ∧
        ((DatabaseStorage.eligiblePlans s).map (fun p => p.id) ≠ [] → 0 < k)) ∧
    (∀ (s : FbStore) (p : DrillPlan),
      (s.plans.map (fun q => q.id)).Nodup → p ∈ s.plans →
      (∀ q ∈ s.plans, q.commandId = p.commandId → q ≠ p → q.date < p.date) →
      DatabaseStorage.sizeLeTarget (FirestoreStorage.getDatabaseSize s) = true →
      ∀ q ∈ s.plans, q.commandId = p.commandId → q ≠ p →
        ¬ q ∈ (FirestoreStorage.pruneOldData s).plans) ∧
    (∀ (s : FbStore) (p : DrillPlan),
      (s.plans.map (fun q => q.id)).Nodup → p ∈ s.plans →
      (∀ q ∈ s.plans, q.commandId = p.commandId → q ≠ p → q.date < p.date) →
      DatabaseStorage.sizeLeTarget (RealtimeStorage.getDatabaseSize s) = true →
      ∀ q ∈ s.plans, q.commandId = p.commandId → q ≠ p →
        ¬ q ∈ (RealtimeStorage.pruneOldData s).plans) := by
  refine ⟨?_, ?_, ?_, ?_⟩
  · intro sizeOf s hsz
    rw [DatabaseStorage.pruneOldData, if_pos hsz]
  · intro sizeOf s hsz
    obtain ⟨k, hk_le, hk_eq, hk_mid, hk_end, hk_pos⟩ :=
      rel_pruneLoop_spec sizeOf ((DatabaseStorage.eligiblePlans s).map (fun p => p.id)) s
    refine ⟨k, hk_le, ?_, hk_mid, hk_end, hk_pos⟩
    rw [DatabaseStorage.pruneOldData, if_neg (by rw [hsz]; simp)]
    exact hk_eq
  · intro s p hnd hp hmax _ q hq hqc hqp hq_surv
    exact hqp ((fs_prune_survivors s p hnd hp hmax).2 q hq_surv hqc)
  · intro s p hnd hp hmax _ q hq hqc hqp hq_surv
    rw [rt_prune_eq_fs] at hq_surv
    exact hqp ((fs_prune_survivors s p hnd hp hmax).2 q hq_surv hqc)

theorem claim_C2_amended_witness :
    DatabaseStorage.pruneOldData (fun _ => 0) exRelPruneStore = exRelPruneStore ∧
    (∃ k, DatabaseStorage.pruneOldData (fun _ => 966367642) exRelPruneStore
        = DatabaseStorage.deleteIds exRelPruneStore
            (((DatabaseStorage.eligiblePlans exRelPruneStore).map (fun p => p.id)).take k) ∧
      0 < k) ∧
    ¬ (⟨1, 10, FlightType.alpha, 7, EventType.drill, 0, 0⟩ : DrillPlan)
        ∈ (FirestoreStorage.pruneOldData exNotesStore).plans := by
  obtain ⟨h1, h2, h3, -⟩ := claim_C2_amended
  refine ⟨h1 (fun _ => 0) exRelPruneStore (by decide), ?_, ?_⟩
  · obtain ⟨k, -, hk_eq, -, -, hk_pos⟩ :=
      h2 (fun _ => 966367642) exRelPruneStore (by decide)
    exact ⟨k, hk_eq, hk_pos (by decide)⟩
  · exact h3 exNotesStore ⟨2, 20, FlightType.tango, 7, EventType.drill, 0, 0⟩
      (by decide) (by decide) (by decide) (by decide)
      ⟨1, 10, FlightType.alpha, 7, EventType.drill, 0, 0⟩ (by decide) (by decide) (by decide)
